import Mathlib

/-!
Verification development for the tax-equity allocation engine.

The embedding models, over `ℚ` for all currency amounts:
  * `constraints/models.py` — the constraint data model (`Condition`,
    `Constraint`, `Fund`);
  * `constraints/constraint_utils.py` — `initialize_constraint_caps`
    (here `initConstraintCaps`) and `apply_exclusions`
    (here `applyExclusions`);
  * `optimization/optimizer.py` — `allocate_systems_to_funds`
    (here `allocateSystemsToFunds`), decomposed into its Step 1
    (per-fund preparation), Step 2 (backlog trimming, exclusion filtering
    and candidate building), Step 3 (sorting) and Step 4 (allocation loop);
  * `scratch_book.py` — its distinct `initialize_constraint_caps` draft
    (here `scratchInitCaps`), kept separately because it resolves
    fraction-vs-absolute bounds with a strict `< 1` test.

DataFrames are modelled as lists of rows; Python dicts as association
lists with first-occurrence lookup and in-place overwrite, which matches
insertion-ordered dict semantics.  Machine floats are modelled as exact
rationals.  Pydantic's type validation makes some of the Python
source's defensive `None` checks unreachable; these spots are noted in
comments at the corresponding definitions.
-/

namespace TaxEquity

/-- Lookup of the first binding of a key in an association list
(Python dict read `d[k]` / `d.get(k)`). -/
def lookupA {α : Type} (k : String) : List (String × α) → Option α
  | [] => none
  | (k', v) :: rest => if k' = k then some v else lookupA k rest

/-- Write `d[k] = v` on an association list: overwrite the first binding of
`k` in place, or append a new binding (insertion-ordered dict write). -/
def setAssoc {α : Type} (k : String) (v : α) : List (String × α) → List (String × α)
  | [] => [(k, v)]
  | (k', u) :: rest => if k' = k then (k', v) :: rest else (k', u) :: setAssoc k v rest

/-- Apply `f` to the value of the first binding of `k`
(Python `d[k] -= x` and similar in-place updates). -/
def updAssoc {α : Type} (k : String) (f : α → α) : List (String × α) → List (String × α)
  | [] => []
  | (k', u) :: rest => if k' = k then (k', f u) :: rest else (k', u) :: updAssoc k f rest

/-- `constraints/models.py` `ConstraintType`. -/
inductive CType where
  | upperBound
  | exclusion
deriving DecidableEq

/-- The polymorphic `Condition.values` field of `constraints/models.py`:
`Union[List[str], Dict[str, float]]`.  Pydantic validates dict values to
`float`, so they are plain rationals here. -/
inductive CondValues where
  | list (vs : List String)
  | dict (vs : List (String × ℚ))
deriving DecidableEq

/-- The keys a `values` field contributes for membership tests: the list
itself, or the keys of the mapping (iterating a Python dict yields its
keys). -/
def condKeys : CondValues → List String
  | .list vs => vs
  | .dict vs => vs.map (·.1)

/-- `constraints/models.py` `Condition`.  The `type` field names the
attribute; `cond` is the source's `condition` operator string, which no
code path of the repository ever reads. -/
structure Condition where
  type : String
  cond : String
  values : CondValues
deriving DecidableEq

/-- `constraints/models.py` `Constraint` (the fields the core reads;
`category`, `measure`, `aggregation`, `group_name`,
`current_allocation`, `remaining_capacity` are carried by the model but
never consulted by the initializer or allocator). -/
structure Constraint where
  name : String
  constraint_type : CType
  upper_bound : Option ℚ
  apply_per_value : Bool
  conditions : List Condition
  active : Bool
deriving DecidableEq

/-- `constraints/models.py` `Fund`. -/
structure Fund where
  name : String
  capacity : ℚ
  constraints : List Constraint
deriving DecidableEq

/-- Modelled from the spec (§3 ConstraintBudget): the `ConstraintModel`
record that `constraints/constraint_utils.py` imports from
`constraints.models` is absent from src/ (the import has no matching
definition), so its shape is taken from the constructor calls in
`initialize_constraint_caps` and the spec's ConstraintBudget. -/
structure ConstraintModel where
  name : String
  attr : String
  upper_bound : ℚ
  values : List String
  is_group : Bool
deriving DecidableEq

/-- Modelled from the spec (§3): the `FundModel` returned by
`initialize_constraint_caps`, likewise absent from src/; shape taken
from the constructor call at the end of that function. -/
structure FundModel where
  name : String
  target_capacity : ℚ
  constraints : List ConstraintModel
deriving DecidableEq

/-- One row of the systems / backlog DataFrame: a unique index, the
`FMV` column, and the remaining categorical columns as an association
list.  A missing column reads as `""`. -/
structure SystemR where
  idx : Nat
  fmv : ℚ
  attrs : List (String × String)
deriving DecidableEq

/-- Read column `a` of row `s` (`system[a]`). -/
def getAttr (s : SystemR) (a : String) : String :=
  (lookupA a s.attrs).getD ""

/-- The `'Asset Portfolio - Customer'` column name used by the allocator. -/
def portfolioKey : String := "Asset Portfolio - Customer"

/-- Sum of the `FMV` column (`df['FMV'].sum()`). -/
def sumFMV (l : List SystemR) : ℚ :=
  (l.map SystemR.fmv).sum

/-- The `"__OTHERS__"` sentinel value. -/
def OTHERS : String := "__OTHERS__"

/-- Fraction-or-absolute resolution of `constraint_utils.py` line 24 and 32:
`ub * fund_capacity if ub <= 1 else ub`. -/
def resolveCap (ub C : ℚ) : ℚ :=
  if ub ≤ 1 then ub * C else ub

/-- The budgets one condition of one constraint contributes
(`constraint_utils.py` lines 26-58): per-value fan-out over a dict (with
each value's own bound) or over a list (sharing the constraint's cap),
else a single group budget.  The source's `if ub is not None` guard on
dict entries is unreachable because the model types dict values as
`float`. -/
def condBudgets (nm : String) (cap C : ℚ) (per : Bool) (cond : Condition) :
    List ConstraintModel :=
  if per then
    match cond.values with
    | .dict m => m.map (fun p =>
        ⟨nm ++ "_" ++ p.1, cond.type, resolveCap p.2 C, [p.1], false⟩)
    | .list vs => vs.map (fun v => ⟨nm ++ "_" ++ v, cond.type, cap, [v], false⟩)
  else
    [⟨nm, cond.type, cap, condKeys cond.values, true⟩]

/-- The constraint loop of `constraint_utils.initialize_constraint_caps`:
skip inactive and Exclusion constraints, skip a `None` `upper_bound`,
then validate the fund capacity (the `isinstance` half of the source
check cannot fail with `ℚ`; the raised `ValueError` message interpolates
the capacity, elided here) and emit the budgets of every condition. -/
def initCapsList (C : ℚ) : List Constraint → Except String (List ConstraintModel)
  | [] => .ok []
  | c :: rest =>
    if c.active = false ∨ c.constraint_type = CType.exclusion then
      initCapsList C rest
    else
      match c.upper_bound with
      | none => initCapsList C rest
      | some ub =>
        if C ≤ 0 then .error "Invalid fund capacity"
        else
          match initCapsList C rest with
          | .error e => .error e
          | .ok more =>
            .ok ((c.conditions.flatMap (condBudgets c.name (resolveCap ub C) C c.apply_per_value)) ++ more)

/-- `constraint_utils.initialize_constraint_caps`. -/
def initConstraintCaps (f : Fund) (C : ℚ) : Except String FundModel :=
  match initCapsList C f.constraints with
  | .error e => .error e
  | .ok l => .ok ⟨f.name, C, l⟩

/-- `constraint_utils.apply_exclusions`: one pandas filter per condition,
dropping the rows whose value for the condition's attribute is a member
of the condition's values (`~df[attribute].isin(values)`); the
condition's operator field is never consulted. -/
def applyExclusions (df : List SystemR) : List Condition → List SystemR
  | [] => df
  | cond :: rest =>
      applyExclusions (df.filter (fun s => decide (¬ getAttr s cond.type ∈ condKeys cond.values))) rest

/-- Modelled from the spec (§4.2): `optimizer.py` passes a whole `Fund`
where `apply_exclusions` expects a list of conditions; the spec says the
filter removes systems matching any *active* Exclusion constraint's
conditions, so the fund's exclusion condition list is assembled here. -/
def exclusionConditions (f : Fund) : List Condition :=
  (f.constraints.filter (fun c => decide (c.active = true ∧ c.constraint_type = CType.exclusion))).flatMap
    Constraint.conditions

/-- The per-fund mutable state of `allocate_systems_to_funds`
(`fund_data[fund_name]` without the reporting-only
`infeasible_constraints` set, which is computed separately by
`buildMessages` since it never influences control flow). -/
structure FundState where
  remaining : ℚ
  attrCaps : List (String × List (String × ℚ))
  constrainedVals : List (String × List String)
  allocated : List SystemR
deriving DecidableEq

/-- Modelled from the spec (§4.1/§4.3): `optimizer.py` unpacks
`initialize_constraint_caps` into `attribute_caps` (attribute → value →
cap) and `constrained_values`, an interface that no function under src/
provides; the attribute → value → cap table is assembled here from the
budget list, one entry per budget value carrying that budget's cap. -/
def buildAttrCaps (budgets : List ConstraintModel) : List (String × List (String × ℚ)) :=
  budgets.foldl
    (fun acc b =>
      b.values.foldl
        (fun acc v =>
          setAssoc b.attr (setAssoc v b.upper_bound ((lookupA b.attr acc).getD [])) acc)
        acc)
    []

/-- Add a value to an attribute's explicitly-referenced set if absent. -/
def addVal (a v : String) (acc : List (String × List String)) : List (String × List String) :=
  if v ∈ (lookupA a acc).getD [] then acc
  else setAssoc a ((lookupA a acc).getD [] ++ [v]) acc

/-- Modelled from the spec (§4.1): `constrained_values`, the per-attribute
set of explicitly-referenced values used to resolve `__OTHERS__`; per
§3(d) the sentinel itself is not an explicit value, so it is not
collected. -/
def buildConstrainedVals (budgets : List ConstraintModel) : List (String × List String) :=
  budgets.foldl
    (fun acc b => b.values.foldl (fun acc v => if v = OTHERS then acc else addVal b.attr v acc) acc)
    []

/-- The netting loop of `allocate_systems_to_funds` Step 1: for every
budget entry, subtract the FMV already allocated (for this fund) to
systems carrying exactly that attribute value, flooring at 0. -/
def netCaps (dfAllocated : List SystemR) (caps : List (String × List (String × ℚ))) :
    List (String × List (String × ℚ)) :=
  caps.map (fun p =>
    (p.1, p.2.map (fun q =>
      let used := sumFMV (dfAllocated.filter (fun s => decide (getAttr s p.1 = q.1)))
      let c := q.2 - used
      (q.1, if c < 0 then 0 else c))))

/-- The rows of the systems table already carried by fund `fn`
(`df_systems[df_systems['Asset Portfolio - Customer'] == fund_name]`). -/
def preAllocated (dfSystems : List SystemR) (fn : String) : List SystemR :=
  dfSystems.filter (fun s => decide (getAttr s portfolioKey = fn))

/-- Step 1 of `allocate_systems_to_funds` for one fund: pre-existing
allocation, floored remaining capacity, initialized and netted caps. -/
def prepareFundData (dfSystems : List SystemR) (f : Fund) (target : ℚ) :
    Except String FundState :=
  match initConstraintCaps f target with
  | .error e => .error e
  | .ok fm =>
    let rem0 := target - sumFMV (preAllocated dfSystems f.name)
    .ok { remaining := if rem0 ≤ 0 then 0 else rem0
          attrCaps := netCaps (preAllocated dfSystems f.name) (buildAttrCaps fm.constraints)
          constrainedVals := buildConstrainedVals fm.constraints
          allocated := preAllocated dfSystems f.name }

/-- `fund_info['constrained_values'].get(attribute, set())`. -/
def constrainedOf (st : FundState) (a : String) : List String :=
  (lookupA a st.constrainedVals).getD []

/-- The per-attribute admission test of the allocation loop (Step 4):
consult the value's own cap if the value is a budget key, else the
`__OTHERS__` cap when present and the value is not explicitly
constrained, else unconstrained. -/
def checkAttrOk (vcs : List (String × ℚ)) (constrained : List String)
    (v : String) (fmv : ℚ) : Bool :=
  match lookupA v vcs with
  | some cap => if cap < fmv then false else true
  | none =>
    match lookupA OTHERS vcs with
    | some cap => if v ∈ constrained then true else if cap < fmv then false else true
    | none => true

/-- The same branch structure in the candidate-building pass (Step 2),
which additionally records a human-readable message for the fund's
`infeasible_constraints` set on failure. -/
def checkAttrMsg (a : String) (vcs : List (String × ℚ)) (constrained : List String)
    (v : String) (fmv : ℚ) : Option String :=
  match lookupA v vcs with
  | some cap =>
    if cap < fmv then some ("Constraint \x27" ++ a ++ "=" ++ v ++ "\x27 exceeded capacity.")
    else none
  | none =>
    match lookupA OTHERS vcs with
    | some cap =>
      if v ∈ constrained then none
      else if cap < fmv then
        some ("Constraint \x27" ++ a ++ "=" ++ OTHERS ++ "\x27 exceeded capacity.")
      else none
    | none => none

/-- Step-4 feasibility over every constrained attribute (the source's
for-loop with early `break` computes exactly this conjunction). -/
def feasB (st : FundState) (s : SystemR) (fmv : ℚ) : Bool :=
  st.attrCaps.all (fun p => checkAttrOk p.2 (constrainedOf st p.1) (getAttr s p.1) fmv)

/-- Step-2 feasibility, returning the first failure message if any
(the source breaks at the first infeasible attribute). -/
def feasMsg (st : FundState) (s : SystemR) : Option String :=
  st.attrCaps.findSome? (fun p => checkAttrMsg p.1 p.2 (constrainedOf st p.1) (getAttr s p.1) s.fmv)

/-- The per-attribute debit of the allocation loop: same branch structure
as the admission test, debiting the consulted cap in place. -/
def debitAttr (vcs : List (String × ℚ)) (constrained : List String)
    (v : String) (fmv : ℚ) : List (String × ℚ) :=
  if (lookupA v vcs).isSome then updAssoc v (fun c => c - fmv) vcs
  else if (lookupA OTHERS vcs).isSome then
    if v ∈ constrained then vcs else updAssoc OTHERS (fun c => c - fmv) vcs
  else vcs

/-- Debit every attribute's applicable budget (`# Update attribute
allocations` block of Step 4). -/
def debitCaps (st : FundState) (s : SystemR) (fmv : ℚ) :
    List (String × List (String × ℚ)) :=
  st.attrCaps.map (fun p => (p.1, debitAttr p.2 (constrainedOf st p.1) (getAttr s p.1) fmv))

/-- A tentative (system, fund) placement of Step 2. -/
structure Candidate where
  systemIdx : Nat
  fundName : String
  fmv : ℚ
deriving DecidableEq

/-- The inner fund loop of Step 2 for one backlog system: skip funds
without fund-level headroom, keep the feasible (system, fund) pairs. -/
def candidatesForSystem (fundData : List (String × FundState)) (s : SystemR) :
    List Candidate :=
  fundData.filterMap (fun p =>
    if p.2.remaining < s.fmv then none
    else if (feasMsg p.2 s).isNone then some ⟨s.idx, p.1, s.fmv⟩ else none)

/-- Step 2's candidate output: systems in backlog order, funds in
declaration order. -/
def buildCandidates (fundData : List (String × FundState)) (backlog : List SystemR) :
    List Candidate :=
  backlog.flatMap (candidatesForSystem fundData)

/-- Step 2's message output: the infeasibility messages each fund's
`infeasible_constraints` set accumulates while candidates are built
(set semantics: order and multiplicity are reporting-only). -/
def buildMessages (fundData : List (String × FundState)) (backlog : List SystemR) :
    List (String × List String) :=
  fundData.map (fun p =>
    (p.1, backlog.filterMap (fun s =>
      if p.2.remaining < s.fmv then none else feasMsg p.2 s)))

/-- Stable descending insertion by FMV: a candidate is placed before the
first strictly smaller entry, after equal ones, matching Python's stable
`sort(key=lambda x: -x['system_fmv'])`. -/
def insertCand (c : Candidate) : List Candidate → List Candidate
  | [] => [c]
  | d :: rest => if d.fmv ≤ c.fmv then c :: d :: rest else d :: insertCand c rest

/-- Step 3: stable sort of the candidate placements, descending by FMV. -/
def sortCandidates : List Candidate → List Candidate
  | [] => []
  | c :: rest => insertCand c (sortCandidates rest)

/-- The mutable state of the Step-4 loop: every fund's state plus the
set of still-unallocated backlog indices. -/
structure AllocState where
  funds : List (String × FundState)
  unallocated : List Nat
deriving DecidableEq

/-- One iteration of the Step-4 allocation loop: skip an already-taken
system, skip when fund-level capacity is short, re-check every budget,
and on admission atomically append the system, debit the fund level and
every applicable budget, and retire the system index. -/
def allocStep (backlog : List SystemR) (st : AllocState) (c : Candidate) : AllocState :=
  if c.systemIdx ∈ st.unallocated then
    match lookupA c.fundName st.funds with
    | none => st
    | some fi =>
      if fi.remaining < c.fmv then st
      else
        match backlog.find? (fun s => decide (s.idx = c.systemIdx)) with
        | none => st
        | some s =>
          if feasB fi s c.fmv then
            { funds := setAssoc c.fundName
                { remaining := fi.remaining - c.fmv
                  attrCaps := debitCaps fi s c.fmv
                  constrainedVals := fi.constrainedVals
                  allocated := fi.allocated ++ [s] } st.funds
              unallocated := st.unallocated.erase c.systemIdx }
          else st
  else st

/-- Step 4: one pass over the sorted candidates. -/
def allocLoop (backlog : List SystemR) (cands : List Candidate) (st : AllocState) :
    AllocState :=
  cands.foldl (allocStep backlog) st

/-- Step 1 over all funds, in order; an initialization error aborts the
whole run (the source's exception propagates out of the fund loop). -/
def step1 (dfSystems : List SystemR) (targets : String → ℚ) :
    List Fund → Except String (List (String × FundState))
  | [] => .ok []
  | f :: rest =>
    match prepareFundData dfSystems f (targets f.name) with
    | .error e => .error e
    | .ok st =>
      match step1 dfSystems targets rest with
      | .error e => .error e
      | .ok l => .ok ((f.name, st) :: l)

/-- Step 2's backlog trimming: drop backlog rows whose index belongs to a
systems row already carried by one of the run's funds (the source reads
an otherwise-unbound `fund_names`; modelled, per the adjacent comment
`Exclude systems that are already allocated to any fund`, as the run's
fund names), then fold every fund's exclusion filter over the shared
backlog, reassigning it each time. -/
def step2backlog (dfSystems dfBacklog : List SystemR) (funds : List Fund) :
    List SystemR :=
  let fundNames := funds.map Fund.name
  let allocIds :=
    (dfSystems.filter (fun s => decide (getAttr s portfolioKey ∈ fundNames))).map SystemR.idx
  let backlog1 := dfBacklog.filter (fun s => decide (¬ s.idx ∈ allocIds))
  funds.foldl (fun df f => applyExclusions df (exclusionConditions f)) backlog1

/-- `optimizer.allocate_systems_to_funds`, through Step 4, returning every
fund's final state plus the per-fund infeasibility messages.  The Step-5
report assembly (which re-derives usage from the same state, and whose
source re-indexes the initializer's result through an interface absent
from src/) adds no further state and is not modelled. -/
def allocateSystemsToFunds (dfSystems dfBacklog : List SystemR) (funds : List Fund)
    (targets : String → ℚ) :
    Except String (List (String × FundState) × List (String × List String)) :=
  match step1 dfSystems targets funds with
  | .error e => .error e
  | .ok fundData =>
    let backlog2 := step2backlog dfSystems dfBacklog funds
    let cands := sortCandidates (buildCandidates fundData backlog2)
    let final := allocLoop backlog2 cands ⟨fundData, backlog2.map SystemR.idx⟩
    .ok (final.funds, buildMessages fundData backlog2)

/-- The fund states of a successful run (empty on an aborted run). -/
def runFunds (dfSystems dfBacklog : List SystemR) (funds : List Fund)
    (targets : String → ℚ) : List (String × FundState) :=
  match allocateSystemsToFunds dfSystems dfBacklog funds targets with
  | .ok r => r.1
  | .error _ => []

/-- The systems a fund state holds beyond the pre-existing allocation it
started from: the systems admitted during the run. -/
def admittedSystems (dfSystems : List SystemR) (fn : String) (st : FundState) :
    List SystemR :=
  st.allocated.drop (dfSystems.filter (fun s => decide (getAttr s portfolioKey = fn))).length

/-- Boolean success test for a run result. -/
def isOkE {ε α : Type} : Except ε α → Bool
  | .ok _ => true
  | .error _ => false

instance exceptDecEq {ε α : Type} [DecidableEq ε] [DecidableEq α] :
    DecidableEq (Except ε α) := fun a b =>
  match a, b with
  | .error e, .error f =>
    if h : e = f then .isTrue (by rw [h]) else .isFalse (fun hh => h (Except.error.inj hh))
  | .ok x, .ok y =>
    if h : x = y then .isTrue (by rw [h]) else .isFalse (fun hh => h (Except.ok.inj hh))
  | .error _, .ok _ => .isFalse (fun hh => Except.noConfusion hh)
  | .ok _, .error _ => .isFalse (fun hh => Except.noConfusion hh)

/-- `scratch_book.py`'s fraction-or-absolute resolution for per-value dict
bounds (line `ub_absolute = ub * fund_capacity if ub < 1 else ub`):
note the strict `< 1`. -/
def scratchResolve (ub C : ℚ) : ℚ :=
  if ub < 1 then ub * C else ub

/-- `scratch_book.py`'s resolution for the constraint-level bound:
`upper_bound * fund_capacity if upper_bound and upper_bound < 1 else
upper_bound` — Python truthiness makes both `None` and `0` take the
else branch. -/
def scratchResolveOpt (ub? : Option ℚ) (C : ℚ) : Option ℚ :=
  match ub? with
  | none => none
  | some u => if u ≠ 0 ∧ u < 1 then some (u * C) else some u

/-- `scratch_book.py`'s `initialize_constraint_caps` constraint-caps dict
(its parallel `constraint_details` dict is reporting data for
`apply_constraints` and carries no cap): skips only inactive
constraints, fans per-value budgets out under `"name - value"` keys, and
stores possibly-`None` caps for list-valued conditions. -/
def scratchInitCaps (constraints : List Constraint) (C : ℚ) : List (String × Option ℚ) :=
  constraints.foldl
    (fun acc c =>
      if c.active = false then acc
      else if c.apply_per_value then
        c.conditions.foldl
          (fun acc cond =>
            match cond.values with
            | .dict m =>
              m.foldl (fun acc p => setAssoc (c.name ++ " - " ++ p.1) (some (scratchResolve p.2 C)) acc) acc
            | .list vs =>
              vs.foldl (fun acc v => setAssoc (c.name ++ " - " ++ v) (scratchResolveOpt c.upper_bound C) acc) acc)
          acc
      else setAssoc c.name (scratchResolveOpt c.upper_bound C) acc)
    []

/-- The still-unallocated index set after the Step-4 loop (the source's
`unallocated_systems`, discarded by Step 5 but characterizing which
backlog systems the run admitted). -/
def runUnallocated (dfSystems dfBacklog : List SystemR) (funds : List Fund)
    (targets : String → ℚ) : List Nat :=
  match step1 dfSystems targets funds with
  | .error _ => []
  | .ok fundData =>
    let backlog2 := step2backlog dfSystems dfBacklog funds
    let cands := sortCandidates (buildCandidates fundData backlog2)
    (allocLoop backlog2 cands ⟨fundData, backlog2.map SystemR.idx⟩).unallocated

/-- All budget remainders of a fund state, and the fund-level remainder,
are non-negative. -/
def NonnegFund (st : FundState) : Prop :=
  0 ≤ st.remaining ∧ ∀ p ∈ st.attrCaps, ∀ q ∈ p.2, 0 ≤ q.2

/-- A constraint that reaches the capacity check of
`initialize_constraint_caps`: active, not an Exclusion, with a non-`None`
upper bound. -/
def Qualifying (c : Constraint) : Prop :=
  c.active = true ∧ c.constraint_type ≠ CType.exclusion ∧ c.upper_bound ≠ none

instance : DecidablePred Qualifying := fun c => by
  unfold Qualifying; infer_instance

instance : DecidablePred NonnegFund := fun st => by
  unfold NonnegFund; infer_instance

/-- A backlog row for the concrete scenarios: index, FMV and a `state`
column. -/
def mkSys (i : Nat) (v : ℚ) (st : String) : SystemR :=
  ⟨i, v, [("state", st)]⟩

/-- The `StateCap` constraint of spec §8.6: active UpperBound,
`apply_per_value`, per-value bounds CA ↦ 0.5, TX ↦ 0.3.  The scenario
leaves the constraint-level `upper_bound` open; it is set to 1 here
because `initialize_constraint_caps` skips a constraint whose
`upper_bound` is `None` before reading its per-value bounds. -/
def stateCap : Constraint :=
  { name := "StateCap", constraint_type := .upperBound, upper_bound := some 1,
    apply_per_value := true,
    conditions := [⟨"state", "In", .dict [("CA", 1/2), ("TX", 3/10)]⟩],
    active := true }

/-- Fund F of spec §8.6. -/
def fundF : Fund := ⟨"F", 1000000, [stateCap]⟩

/-- Candidates S1-S4 of spec §8.6. -/
def backlogC1 : List SystemR :=
  [mkSys 1 400000 "CA", mkSys 2 300000 "TX", mkSys 3 200000 "CA", mkSys 4 100000 "NY"]

/-- A systems row pre-allocated to fund F with FMV 2,000,000. -/
def preSys : SystemR := ⟨0, 2000000, [(portfolioKey, "F")]⟩

/-- An active Exclusion constraint barring `state = CA`. -/
def exclCA : Constraint :=
  { name := "NoCA", constraint_type := .exclusion, upper_bound := none,
    apply_per_value := false, conditions := [⟨"state", "In", .list ["CA"]⟩],
    active := true }

/-- Fund A with the CA exclusion. -/
def fundA : Fund := ⟨"A", 1000000, [exclCA]⟩

/-- Fund B with no constraints at all. -/
def fundB : Fund := ⟨"B", 1000000, []⟩

/-- An active UpperBound constraint with a per-value bound of exactly 1. -/
def pervOne : Constraint :=
  { name := "S", constraint_type := .upperBound, upper_bound := some 1,
    apply_per_value := true, conditions := [⟨"state", "In", .dict [("CA", 1)]⟩],
    active := true }

/-- An ordinary active UpperBound group constraint (a qualifying
constraint for capacity validation). -/
def qConstraint : Constraint :=
  { name := "Q", constraint_type := .upperBound, upper_bound := some (1/2),
    apply_per_value := false, conditions := [⟨"state", "In", .list ["CA"]⟩],
    active := true }

/-- An active UpperBound constraint with `upper_bound = None` but a
per-value bound map on its condition. -/
def nullUB : Constraint :=
  { name := "N", constraint_type := .upperBound, upper_bound := none,
    apply_per_value := true, conditions := [⟨"state", "In", .dict [("CA", 1/2)]⟩],
    active := true }

/-- A fund with explicit per-value budgets for `state = A` (absolute 100)
and for `__OTHERS__` (absolute 50). -/
def othersFund : Fund :=
  ⟨"O", 1000,
    [{ name := "OC", constraint_type := .upperBound, upper_bound := some 900,
       apply_per_value := true,
       conditions := [⟨"state", "In", .dict [("A", 100), ("__OTHERS__", 50)]⟩],
       active := true }]⟩

/-- An unconstrained fund with capacity 100. -/
def fundG : Fund := ⟨"G", 100, []⟩

/-- Backlog 60/50/50 for the greedy counterexample. -/
def backlogG : List SystemR := [⟨0, 60, []⟩, ⟨1, 50, []⟩, ⟨2, 50, []⟩]

/-- Backlog 60/50 for the unallocated-removal witness. -/
def backlogW : List SystemR := [⟨0, 60, []⟩, ⟨1, 50, []⟩]

/-- The fund state `prepareFundData` produces for `othersFund` at target
capacity 1000 with no pre-allocated systems. -/
def stO : FundState :=
  ⟨1000, [("state", [("A", 100), ("__OTHERS__", 50)])], [("state", ["A"])], []⟩

section Proofs

unseal Rat.mul Rat.add Rat.sub Rat.inv

/-- C1: on the §8.6 scenario — fund capacity 1,000,000, per-value state
caps CA ↦ 0.5 and TX ↦ 0.3, candidates S1(400000, CA), S2(300000, TX),
S3(200000, CA), S4(100000, NY) — the allocator admits exactly S1, S2 and
S4 (S3 is rejected), allocating 800,000 in total and leaving CA budget
remaining 100,000, TX budget remaining 0. -/
theorem c1_concrete_scenario :
    runFunds [] backlogC1 [fundF] (fun _ => 1000000) =
      [("F", { remaining := 200000,
               attrCaps := [("state", [("CA", 100000), ("TX", 0)])],
               constrainedVals := [("state", ["CA", "TX"])],
               allocated := [mkSys 1 400000 "CA", mkSys 2 300000 "TX", mkSys 4 100000 "NY"] })] ∧
    (runFunds [] backlogC1 [fundF] (fun _ => 1000000)).map
        (fun p => sumFMV p.2.allocated) = [800000] ∧
    ¬ (3 : Nat) ∈ (runFunds [] backlogC1 [fundF] (fun _ => 1000000)).flatMap
        (fun p => p.2.allocated.map SystemR.idx) := by
  refine ⟨by decide, by decide, by decide⟩

lemma mem_applyExclusions (df : List SystemR) (conds : List Condition) (s : SystemR) :
    s ∈ applyExclusions df conds ↔
      s ∈ df ∧ ∀ c ∈ conds, getAttr s c.type ∉ condKeys c.values := by
  induction conds generalizing df with
  | nil => simp [applyExclusions]
  | cons c rest ih =>
    rw [applyExclusions, ih]
    simp only [List.mem_filter, decide_eq_true_eq, List.mem_cons]
    constructor
    · rintro ⟨⟨hs, hc⟩, hrest⟩
      exact ⟨hs, fun d hd => hd.elim (fun h => h ▸ hc) (hrest d)⟩
    · rintro ⟨hs, hall⟩
      exact ⟨⟨hs, hall c (Or.inl rfl)⟩, fun d hd => hall d (Or.inr hd)⟩

/-- C10: exclusion filtering keeps exactly the rows failing every
condition's membership test — the value of the condition's attribute is
a member of the condition's values — and the condition's operator field
is irrelevant: any two operator strings filter identically, and an empty
values list excludes nothing. -/
theorem c10_exclusion_ignores_operator :
    (∀ (df : List SystemR) (conds : List Condition) (s : SystemR),
      s ∈ applyExclusions df conds ↔
        s ∈ df ∧ ∀ c ∈ conds, getAttr s c.type ∉ condKeys c.values) ∧
    (∀ (df : List SystemR) (a op op' : String) (vs : CondValues),
      applyExclusions df [⟨a, op, vs⟩] = applyExclusions df [⟨a, op', vs⟩]) ∧
    (∀ (df : List SystemR) (a op : String),
      applyExclusions df [⟨a, op, .list []⟩] = df) := by
  refine ⟨mem_applyExclusions, fun df a op op' vs => rfl, fun df a op => ?_⟩
  simp [applyExclusions, condKeys]

/-- C6 counterexample: `scratch_book.py`'s initializer resolves a
per-value bound of exactly 1 with a strict `< 1` test, producing the
absolute cap 1 instead of `1 × 1000000 = 1000000` (100% of target
capacity) as the claim states for every per-value bound. -/
theorem c6_counterexample :
    scratchInitCaps [pervOne] 1000000 = [("S - CA", some 1)] ∧
    scratchResolve 1 1000000 = 1 ∧ ((1 : ℚ) ≠ 1000000) :=
  ⟨by decide, by decide, by decide⟩

/-- C6 amended: `constraint_utils.initialize_constraint_caps` resolves a
bound (and each per-value bound) as a fraction of target capacity when
it is ≤ 1 and as an absolute amount when it is > 1, so a bound of
exactly 1 resolves to the full target capacity there; but the
`scratch_book.py` initializer uses a strict `< 1` test for per-value
bounds, so there a bound of exactly 1 is kept as the absolute amount
1. -/
theorem c6_amended (b C : ℚ) (hC : 0 < C) (nm a v op : String) :
    initConstraintCaps ⟨"F", C, [⟨nm, .upperBound, some 1, true, [⟨a, op, .dict [(v, b)]⟩], true⟩]⟩ C =
      .ok ⟨"F", C, [⟨nm ++ "_" ++ v, a, if b ≤ 1 then b * C else b, [v], false⟩]⟩ ∧
    scratchInitCaps [⟨nm, .upperBound, some 1, true, [⟨a, op, .dict [(v, b)]⟩], true⟩] C =
      [(nm ++ " - " ++ v, some (if b < 1 then b * C else b))] ∧
    resolveCap 1 C = C ∧ scratchResolve 1 C = 1 := by
  refine ⟨?_, ?_, ?_, ?_⟩
  · simp [initConstraintCaps, initCapsList, condBudgets, resolveCap, not_le.mpr hC]
  · simp [scratchInitCaps, scratchResolve, setAssoc]
  · simp [resolveCap]
  · simp [scratchResolve]

/-- C6 amended witness at bound 1, capacity 1,000,000. -/
theorem c6_amended_witness :
    initConstraintCaps ⟨"F", 1000000, [pervOne]⟩ 1000000 =
      .ok ⟨"F", 1000000, [⟨"S_CA", "state", 1000000, ["CA"], false⟩]⟩ ∧
    scratchInitCaps [pervOne] 1000000 = [("S - CA", some 1)] := by
  have h := c6_amended 1 1000000 (by norm_num) "S" "state" "CA" "In"
  exact ⟨h.1, h.2.1⟩

lemma initCapsList_error (C : ℚ) (hC : C ≤ 0) :
    ∀ l : List Constraint, (∃ c ∈ l, Qualifying c) →
      initCapsList C l = .error "Invalid fund capacity" := by
  intro l
  induction l with
  | nil => rintro ⟨c, hc, -⟩; simp at hc
  | cons c rest ih =>
    rintro ⟨d, hd, hq⟩
    rw [initCapsList]
    by_cases hskip : c.active = false ∨ c.constraint_type = CType.exclusion
    · rw [if_pos hskip]
      apply ih
      rcases List.mem_cons.mp hd with rfl | hdr
      · exact absurd hskip (by
          rcases hq with ⟨h1, h2, -⟩
          push_neg
          exact ⟨by simp [h1], h2⟩)
      · exact ⟨d, hdr, hq⟩
    · rw [if_neg hskip]
      cases hub : c.upper_bound with
      | none =>
        apply ih
        rcases List.mem_cons.mp hd with rfl | hdr
        · exact absurd hub hq.2.2
        · exact ⟨d, hdr, hq⟩
      | some u => simp [if_pos hC]

lemma initCapsList_no_qualifying (C : ℚ) :
    ∀ l : List Constraint, (∀ c ∈ l, ¬ Qualifying c) → initCapsList C l = .ok [] := by
  intro l
  induction l with
  | nil => intro _; rfl
  | cons c rest ih =>
    intro h
    rw [initCapsList]
    by_cases hskip : c.active = false ∨ c.constraint_type = CType.exclusion
    · rw [if_pos hskip]
      exact ih (fun d hd => h d (List.mem_cons_of_mem c hd))
    · rw [if_neg hskip]
      push_neg at hskip
      cases hub : c.upper_bound with
      | none => exact ih (fun d hd => h d (List.mem_cons_of_mem c hd))
      | some u =>
        exact absurd ⟨Bool.not_eq_false c.active |>.mp hskip.1, hskip.2, by simp [hub]⟩
          (h c (List.mem_cons_self c rest))

lemma initCapsList_error_msg (C : ℚ) :
    ∀ (l : List Constraint) (e : String), initCapsList C l = .error e →
      e = "Invalid fund capacity" := by
  intro l
  induction l with
  | nil => intro e he; simp [initCapsList] at he
  | cons c rest ih =>
    intro e he
    rw [initCapsList] at he
    by_cases hskip : c.active = false ∨ c.constraint_type = CType.exclusion
    · rw [if_pos hskip] at he; exact ih e he
    · rw [if_neg hskip] at he
      split at he
      · exact ih e he
      · split at he
        · cases he; rfl
        · split at he
          · rename_i heq
            cases he
            exact ih _ heq
          · cases he

lemma initConstraintCaps_error_msg (f : Fund) (C : ℚ) (e : String)
    (h : initConstraintCaps f C = .error e) : e = "Invalid fund capacity" := by
  unfold initConstraintCaps at h
  split at h
  · rename_i hl
    cases h
    exact initCapsList_error_msg C f.constraints _ hl
  · cases h

lemma prepareFundData_error_msg (dfS : List SystemR) (f : Fund) (t : ℚ) (e : String)
    (h : prepareFundData dfS f t = .error e) : e = "Invalid fund capacity" := by
  unfold prepareFundData at h
  split at h
  · rename_i hl
    cases h
    exact initConstraintCaps_error_msg f t _ hl
  · cases h

lemma step1_error (dfS : List SystemR) (targets : String → ℚ) :
    ∀ (funds : List Fund) (f : Fund), f ∈ funds →
      prepareFundData dfS f (targets f.name) = .error "Invalid fund capacity" →
      step1 dfS targets funds = .error "Invalid fund capacity" := by
  intro funds
  induction funds with
  | nil => intro f hf; simp at hf
  | cons g rest ih =>
    intro f hf herr
    rw [step1]
    cases hg : prepareFundData dfS g (targets g.name) with
    | error e =>
      have he := prepareFundData_error_msg dfS g (targets g.name) e hg
      subst he
      rfl
    | ok st =>
      rcases List.mem_cons.mp hf with rfl | hfr
      · rw [herr] at hg; cases hg
      · rw [ih f hfr herr]

/-- C7 counterexample: a fund with no active non-Exclusion constraint
carrying an upper bound initializes successfully at capacity 0 instead
of failing (no configuration error is raised); and in a batch, one
fund's invalid capacity aborts the entire run — the healthy second fund
gets no result — instead of aborting only that fund. -/
theorem c7_counterexample :
    initConstraintCaps ⟨"Z", 0, []⟩ 0 = .ok ⟨"Z", 0, []⟩ ∧
    allocateSystemsToFunds [] [] [⟨"Bad", 5, [qConstraint]⟩, ⟨"Good", 7, []⟩]
        (fun n => if n = "Bad" then 0 else 500) = .error "Invalid fund capacity" :=
  ⟨by decide, by decide⟩

/-- C7 amended: initialization raises the invalid-capacity error exactly
when it reaches an active non-Exclusion constraint with a non-`None`
upper bound while the target capacity is non-positive — so the error, when
raised, precedes the creation of any budget; a fund with no such
constraint yields a budget-less fund model without any error, whatever
its capacity; and inside a multi-fund run the error aborts the whole
batch, not just the offending fund. -/
theorem c7_amended :
    (∀ (f : Fund) (C : ℚ), C ≤ 0 → (∃ c ∈ f.constraints, Qualifying c) →
      initConstraintCaps f C = .error "Invalid fund capacity") ∧
    (∀ (f : Fund) (C : ℚ), (∀ c ∈ f.constraints, ¬ Qualifying c) →
      initConstraintCaps f C = .ok ⟨f.name, C, []⟩) ∧
    (∀ (dfS dfB : List SystemR) (funds : List Fund) (targets : String → ℚ) (f : Fund),
      f ∈ funds → targets f.name ≤ 0 → (∃ c ∈ f.constraints, Qualifying c) →
      allocateSystemsToFunds dfS dfB funds targets = .error "Invalid fund capacity") := by
  have hinit : ∀ (f : Fund) (C : ℚ), C ≤ 0 → (∃ c ∈ f.constraints, Qualifying c) →
      initConstraintCaps f C = .error "Invalid fund capacity" := by
    intro f C hC hq
    unfold initConstraintCaps
    rw [initCapsList_error C hC f.constraints hq]
  refine ⟨hinit, ?_, ?_⟩
  · intro f C h
    unfold initConstraintCaps
    rw [initCapsList_no_qualifying C f.constraints h]
  · intro dfS dfB funds targets f hf hC hq
    have hprep : prepareFundData dfS f (targets f.name) = .error "Invalid fund capacity" := by
      unfold prepareFundData
      rw [hinit f (targets f.name) hC hq]
    unfold allocateSystemsToFunds
    rw [step1_error dfS targets funds f hf hprep]

/-- C7 amended witness: the three parts at concrete inputs. -/
theorem c7_amended_witness :
    initConstraintCaps ⟨"Bad", 5, [qConstraint]⟩ 0 = .error "Invalid fund capacity" ∧
    initConstraintCaps ⟨"Z", 0, []⟩ 0 = .ok ⟨"Z", 0, []⟩ ∧
    allocateSystemsToFunds [] [] [⟨"Bad", 5, [qConstraint]⟩, ⟨"Good", 7, []⟩]
        (fun n => if n = "Bad" then 0 else 500) = .error "Invalid fund capacity" :=
  ⟨c7_amended.1 ⟨"Bad", 5, [qConstraint]⟩ 0 (by norm_num) ⟨qConstraint, by decide, by decide⟩,
   c7_amended.2.1 ⟨"Z", 0, []⟩ 0 (by intro c hc; simp at hc),
   c7_amended.2.2 [] [] _ _ ⟨"Bad", 5, [qConstraint]⟩ (List.mem_cons_self _ _)
     (by norm_num) ⟨qConstraint, by decide, by decide⟩⟩

lemma initCapsList_cons_congr (C : ℚ) (g : Constraint) {l₁ l₂ : List Constraint}
    (h : initCapsList C l₁ = initCapsList C l₂) :
    initCapsList C (g :: l₁) = initCapsList C (g :: l₂) := by
  rw [initCapsList, initCapsList, h]

lemma c9_initCapsList_skip (c : Constraint) (hact : c.active = true)
    (htype : c.constraint_type = CType.upperBound) (hub : c.upper_bound = none) (C : ℚ) :
    ∀ pre post : List Constraint,
      initCapsList C (pre ++ c :: post) = initCapsList C (pre ++ post) := by
  intro pre post
  induction pre with
  | nil =>
    simp only [List.nil_append]
    rw [initCapsList]
    have hskip : ¬ (c.active = false ∨ c.constraint_type = CType.exclusion) := by
      push_neg
      exact ⟨by simp [hact], by simp [htype]⟩
    rw [if_neg hskip, hub]
  | cons g pre ih =>
    simpa using initCapsList_cons_congr C g ih

lemma c9_excl_skip (c : Constraint) (htype : c.constraint_type = CType.upperBound)
    (n : String) (cp : ℚ) (pre post : List Constraint) :
    exclusionConditions ⟨n, cp, pre ++ c :: post⟩ = exclusionConditions ⟨n, cp, pre ++ post⟩ := by
  unfold exclusionConditions
  simp [List.filter_append, List.filter_cons, htype]

lemma prepareFundData_congr (dfS : List SystemR) (t : ℚ) {f₁ f₂ : Fund}
    (hname : f₁.name = f₂.name)
    (hinit : initCapsList t f₁.constraints = initCapsList t f₂.constraints) :
    prepareFundData dfS f₁ t = prepareFundData dfS f₂ t := by
  unfold prepareFundData initConstraintCaps
  rw [hinit, hname]

/-- C9: an active UpperBound constraint whose `upper_bound` is `None` is
skipped before its conditions are read, even when they carry a
values→bound mapping: capacity initialization emits no budget for it,
and a single-fund allocation run with the constraint equals the run
without it. -/
theorem c9_null_upper_bound_skipped (pre post : List Constraint) (c : Constraint)
    (hact : c.active = true) (htype : c.constraint_type = CType.upperBound)
    (hub : c.upper_bound = none) (n : String) (cp C : ℚ)
    (dfS dfB : List SystemR) (targets : String → ℚ) :
    initConstraintCaps ⟨n, cp, pre ++ c :: post⟩ C = initConstraintCaps ⟨n, cp, pre ++ post⟩ C ∧
    allocateSystemsToFunds dfS dfB [⟨n, cp, pre ++ c :: post⟩] targets =
      allocateSystemsToFunds dfS dfB [⟨n, cp, pre ++ post⟩] targets := by
  constructor
  · unfold initConstraintCaps
    rw [c9_initCapsList_skip c hact htype hub C pre post]
  · unfold allocateSystemsToFunds step1 step2backlog
    rw [@prepareFundData_congr dfS (targets n) ⟨n, cp, pre ++ c :: post⟩ ⟨n, cp, pre ++ post⟩
        rfl (c9_initCapsList_skip c hact htype hub (targets n) pre post)]
    simp only [List.foldl, List.map, c9_excl_skip c htype n cp pre post]

lemma lookupA_mem {α : Type} (k : String) (v : α) :
    ∀ l : List (String × α), lookupA k l = some v → (k, v) ∈ l := by
  intro l
  induction l with
  | nil => intro h; cases h
  | cons p rest ih =>
    intro h
    rw [lookupA] at h
    split at h
    · rename_i heq
      cases h
      rw [← heq]
      exact List.mem_cons_self p rest
    · exact List.mem_cons_of_mem p (ih h)

lemma lookupA_updAssoc_ne {α : Type} (j k : String) (h : j ≠ k) (f : α → α) :
    ∀ l : List (String × α), lookupA j (updAssoc k f l) = lookupA j l := by
  intro l
  induction l with
  | nil => rfl
  | cons p rest ih =>
    rw [updAssoc]
    split
    · rename_i heq
      have hne : ¬ p.1 = j := fun hh => h (hh ▸ heq)
      rw [lookupA, lookupA, if_neg hne, if_neg hne]
    · rw [lookupA, lookupA]
      split
      · rfl
      · exact ih

lemma mem_setAssoc {α : Type} (k : String) (v : α) (p : String × α) :
    ∀ l : List (String × α), p ∈ setAssoc k v l → p = (k, v) ∨ p ∈ l := by
  intro l
  induction l with
  | nil =>
    intro h
    exact Or.inl (by simpa [setAssoc] using h)
  | cons q rest ih =>
    intro h
    rw [setAssoc] at h
    split at h
    · rename_i heq
      rcases List.mem_cons.mp h with rfl | hr
      · exact Or.inl (by rw [heq])
      · exact Or.inr (List.mem_cons_of_mem q hr)
    · rcases List.mem_cons.mp h with rfl | hr
      · exact Or.inr (List.mem_cons_self _ _)
      · exact (ih hr).imp id (List.mem_cons_of_mem q)

lemma lookupA_setAssoc_self {α : Type} (k : String) (v : α) :
    ∀ l : List (String × α), lookupA k (setAssoc k v l) = some v := by
  intro l
  induction l with
  | nil => simp [setAssoc, lookupA]
  | cons q rest ih =>
    rw [setAssoc]
    split
    · rename_i heq
      rw [lookupA, if_pos heq]
    · rename_i hne
      rw [lookupA, if_neg hne]
      exact ih

lemma lookupA_setAssoc_ne {α : Type} (j k : String) (h : j ≠ k) (v : α) :
    ∀ l : List (String × α), lookupA j (setAssoc k v l) = lookupA j l := by
  intro l
  induction l with
  | nil =>
    have : ¬ k = j := fun hh => h hh.symm
    simp [setAssoc, lookupA, this]
  | cons q rest ih =>
    rw [setAssoc]
    split
    · rename_i heq
      have hne : ¬ q.1 = j := fun hh => h (hh ▸ heq)
      rw [lookupA, lookupA, if_neg hne, if_neg hne]
    · rw [lookupA, lookupA]
      split
      · rfl
      · exact ih

lemma lookupA_mapValues {α β : Type} (k : String) (g : String → α → β) :
    ∀ l : List (String × α),
      lookupA k (l.map (fun q => (q.1, g q.1 q.2))) = (lookupA k l).map (g k) := by
  intro l
  induction l with
  | nil => rfl
  | cons q rest ih =>
    simp only [List.map_cons]
    rw [lookupA, lookupA]
    split
    · rename_i heq
      subst heq
      rfl
    · exact ih

/-- Coherence between an attribute→value→cap table and the
explicitly-referenced value sets: every non-OTHERS budget key is
recorded as an explicitly constrained value of its attribute. -/
def Coh (caps : List (String × List (String × ℚ))) (cvals : List (String × List String)) : Prop :=
  ∀ a vcs, (a, vcs) ∈ caps → ∀ k c, lookupA k vcs = some c → k ≠ OTHERS →
    k ∈ (lookupA a cvals).getD []

lemma addVal_mono (a₀ v₀ : String) (cvals : List (String × List String)) (a x : String)
    (hx : x ∈ (lookupA a cvals).getD []) :
    x ∈ (lookupA a (addVal a₀ v₀ cvals)).getD [] := by
  unfold addVal
  split
  · exact hx
  · by_cases ha : a = a₀
    · subst ha
      rw [lookupA_setAssoc_self]
      exact List.mem_append_left _ hx
    · rw [lookupA_setAssoc_ne a a₀ ha]
      exact hx

lemma addVal_self (a₀ v₀ : String) (cvals : List (String × List String)) :
    v₀ ∈ (lookupA a₀ (addVal a₀ v₀ cvals)).getD [] := by
  unfold addVal
  split
  · assumption
  · rw [lookupA_setAssoc_self]
    exact List.mem_append_right _ (List.mem_cons_self _ _)

lemma coh_step (a₀ v₀ : String) (c₀ : ℚ) (caps : List (String × List (String × ℚ)))
    (cvals : List (String × List String)) (h : Coh caps cvals) :
    Coh (setAssoc a₀ (setAssoc v₀ c₀ ((lookupA a₀ caps).getD [])) caps)
      (if v₀ = OTHERS then cvals else addVal a₀ v₀ cvals) := by
  intro a vcs hmem k c hk hkO
  rcases mem_setAssoc _ _ _ _ hmem with heq | hold
  · obtain ⟨ha, hvcs⟩ := Prod.mk.injEq _ _ _ _ |>.mp heq
    subst ha
    subst hvcs
    by_cases hkv : k = v₀
    · subst hkv
      rw [if_neg hkO]
      exact addVal_self a k cvals
    · rw [lookupA_setAssoc_ne k v₀ hkv] at hk
      cases hcur : lookupA a caps with
      | none => rw [hcur] at hk; cases hk
      | some vcs₀ =>
        rw [hcur] at hk
        have hbase := h a vcs₀ (lookupA_mem a vcs₀ caps hcur) k c hk hkO
        split
        · exact hbase
        · exact addVal_mono a v₀ cvals a k hbase
  · have hbase := h a vcs hold k c hk hkO
    split
    · exact hbase
    · exact addVal_mono a₀ v₀ cvals a k hbase

lemma coh_fold_values (a₀ : String) (c₀ : ℚ) :
    ∀ (vs : List String) caps cvals, Coh caps cvals →
      Coh (vs.foldl (fun acc v => setAssoc a₀ (setAssoc v c₀ ((lookupA a₀ acc).getD [])) acc) caps)
        (vs.foldl (fun acc v => if v = OTHERS then acc else addVal a₀ v acc) cvals) := by
  intro vs
  induction vs with
  | nil => intro caps cvals h; exact h
  | cons v rest ih =>
    intro caps cvals h
    exact ih _ _ (coh_step a₀ v c₀ caps cvals h)

lemma coh_fold_budgets :
    ∀ (B : List ConstraintModel) caps cvals, Coh caps cvals →
      Coh (B.foldl (fun acc b => b.values.foldl
            (fun acc v => setAssoc b.attr (setAssoc v b.upper_bound ((lookupA b.attr acc).getD [])) acc) acc) caps)
        (B.foldl (fun acc b => b.values.foldl
            (fun acc v => if v = OTHERS then acc else addVal b.attr v acc) acc) cvals) := by
  intro B
  induction B with
  | nil => intro caps cvals h; exact h
  | cons b rest ih =>
    intro caps cvals h
    exact ih _ _ (coh_fold_values b.attr b.upper_bound b.values caps cvals h)

lemma coh_build (B : List ConstraintModel) :
    Coh (buildAttrCaps B) (buildConstrainedVals B) := by
  unfold buildAttrCaps buildConstrainedVals
  exact coh_fold_budgets B [] [] (fun a vcs h => by cases h)

lemma coh_netCaps (dfA : List SystemR) (caps : List (String × List (String × ℚ)))
    (cvals : List (String × List String)) (h : Coh caps cvals) :
    Coh (netCaps dfA caps) cvals := by
  intro a vcs hmem k c hk hkO
  unfold netCaps at hmem
  rcases List.mem_map.mp hmem with ⟨⟨a', vcs₀⟩, hm, heq⟩
  cases heq
  have := lookupA_mapValues k
    (fun k0 c0 =>
      let used := sumFMV (dfA.filter (fun s => decide (getAttr s a' = k0)))
      if c0 - used < 0 then 0 else c0 - used) vcs₀
  rw [this] at hk
  cases hl : lookupA k vcs₀ with
  | none => rw [hl] at hk; cases hk
  | some c₀ => exact h a' vcs₀ hm k c₀ hl hkO

lemma prepare_coh (dfS : List SystemR) (f : Fund) (C : ℚ) (st : FundState)
    (hprep : prepareFundData dfS f C = .ok st) :
    ∀ a vcs, (a, vcs) ∈ st.attrCaps → ∀ k c, lookupA k vcs = some c → k ≠ OTHERS →
      k ∈ constrainedOf st a := by
  unfold prepareFundData at hprep
  split at hprep
  · cases hprep
  · rename_i fm hfm
    cases hprep
    intro a vcs hmem k c hk hkO
    exact coh_netCaps _ _ _ (coh_build fm.constraints) a vcs hmem k c hk hkO

/-- C5: against any state produced by capacity initialization, for an
attribute with explicit value budgets and an `__OTHERS__` budget: in both
the admission check and the debit step, a system value equal to an
explicitly budgeted (non-sentinel) value consults and debits only that
value's budget and leaves the OTHERS cap untouched, while a system value
not among the attribute's explicitly referenced values consults and
debits only the OTHERS budget, leaving every other cap untouched. -/
theorem c5_others_exclusivity (dfS : List SystemR) (f : Fund) (C : ℚ) (st : FundState)
    (hprep : prepareFundData dfS f C = .ok st)
    (a : String) (vcs : List (String × ℚ)) (hattr : (a, vcs) ∈ st.attrCaps)
    (v : String) (fmv : ℚ) :
    (∀ cap, lookupA v vcs = some cap → v ≠ OTHERS →
      checkAttrOk vcs (constrainedOf st a) v fmv = (if cap < fmv then false else true) ∧
      debitAttr vcs (constrainedOf st a) v fmv = updAssoc v (fun c => c - fmv) vcs ∧
      lookupA OTHERS (debitAttr vcs (constrainedOf st a) v fmv) = lookupA OTHERS vcs) ∧
    (v ∉ constrainedOf st a → v ≠ OTHERS → ∀ capO, lookupA OTHERS vcs = some capO →
      checkAttrOk vcs (constrainedOf st a) v fmv = (if capO < fmv then false else true) ∧
      debitAttr vcs (constrainedOf st a) v fmv = updAssoc OTHERS (fun c => c - fmv) vcs ∧
      ∀ k, k ≠ OTHERS → lookupA k (debitAttr vcs (constrainedOf st a) v fmv) = lookupA k vcs) := by
  constructor
  · intro cap hv hvO
    refine ⟨?_, ?_, ?_⟩
    · simp only [checkAttrOk, hv]
    · simp only [debitAttr, hv, Option.isSome_some, if_true]
    · simp only [debitAttr, hv, Option.isSome_some, if_true]
      exact lookupA_updAssoc_ne OTHERS v (fun hh => hvO hh.symm) _ vcs
  · intro hcon hvO capO ho
    have hv : lookupA v vcs = none := by
      cases hl : lookupA v vcs with
      | none => rfl
      | some c =>
        exact absurd (prepare_coh dfS f C st hprep a vcs hattr v c hl hvO) hcon
    refine ⟨?_, ?_, ?_⟩
    · simp only [checkAttrOk, hv, ho]
      rw [if_neg hcon]
    · simp only [debitAttr, hv, ho, Option.isSome_some, Option.isSome_none, if_true,
        Bool.false_eq_true, if_false]
      rw [if_neg hcon]
    · intro k hkO
      simp only [debitAttr, hv, ho, Option.isSome_some, Option.isSome_none, if_true,
        Bool.false_eq_true, if_false]
      rw [if_neg hcon]
      exact lookupA_updAssoc_ne k OTHERS hkO _ vcs

/-- C5 witness: for caps `A ↦ 100`, `__OTHERS__ ↦ 50` with explicitly
referenced set `{A}`, value `C` consults and debits only OTHERS and
value `A` consults and debits only the `A` budget. -/
theorem c5_witness :
    checkAttrOk [("A", 100), ("__OTHERS__", 50)] ["A"] "C" 60 =
      (if (50 : ℚ) < 60 then false else true) ∧
    debitAttr [("A", 100), ("__OTHERS__", 50)] ["A"] "C" 60 =
      updAssoc OTHERS (fun c => c - 60) [("A", 100), ("__OTHERS__", 50)] ∧
    checkAttrOk [("A", 100), ("__OTHERS__", 50)] ["A"] "A" 60 =
      (if (100 : ℚ) < 60 then false else true) ∧
    debitAttr [("A", 100), ("__OTHERS__", 50)] ["A"] "A" 60 =
      updAssoc "A" (fun c => c - 60) [("A", 100), ("__OTHERS__", 50)] ∧
    lookupA OTHERS (debitAttr [("A", 100), ("__OTHERS__", 50)] ["A"] "A" 60) =
      lookupA OTHERS [("A", 100), ("__OTHERS__", 50)] := by
  have h := c5_others_exclusivity [] othersFund 1000 stO (by decide) "state"
    [("A", 100), ("__OTHERS__", 50)] (by decide)
  have h1 := (h "C" 60).2 (by decide) (by decide) 50 (by decide)
  have h2 := (h "A" 60).1 100 (by decide) (by decide)
  exact ⟨h1.1, h1.2.1, h2.1, h2.2.1, h2.2.2⟩

/-- C9 witness: a `None`-bound per-value constraint produces no budget and
does not change the §8.6 run. -/
theorem c9_witness :
    initConstraintCaps ⟨"F", 1000000, [nullUB]⟩ 1000000 =
      initConstraintCaps ⟨"F", 1000000, []⟩ 1000000 ∧
    allocateSystemsToFunds [] backlogC1 [⟨"F", 1000000, [nullUB]⟩] (fun _ => 1000000) =
      allocateSystemsToFunds [] backlogC1 [⟨"F", 1000000, []⟩] (fun _ => 1000000) :=
  c9_null_upper_bound_skipped [] [] nullUB (by decide) (by decide) (by decide)
    "F" 1000000 1000000 [] backlogC1 (fun _ => 1000000)

lemma updAssoc_sub_nonneg (k : String) (fmv : ℚ) :
    ∀ l : List (String × ℚ), (∀ p ∈ l, 0 ≤ p.2) →
      (∀ c, lookupA k l = some c → 0 ≤ c - fmv) →
      ∀ p ∈ updAssoc k (fun c => c - fmv) l, 0 ≤ p.2 := by
  intro l
  induction l with
  | nil => intro _ _ p hp; cases hp
  | cons q rest ih =>
    intro hnn hsub p hp
    rw [updAssoc] at hp
    split at hp
    · rename_i heq
      rcases List.mem_cons.mp hp with rfl | hr
      · exact hsub q.2 (by rw [lookupA, if_pos heq])
      · exact hnn p (List.mem_cons_of_mem q hr)
    · rename_i hne
      rcases List.mem_cons.mp hp with rfl | hr
      · exact hnn q (List.mem_cons_self q rest)
      · refine ih (fun r hr2 => hnn r (List.mem_cons_of_mem q hr2)) ?_ p hr
        intro c hc
        exact hsub c (by rw [lookupA, if_neg hne]; exact hc)

lemma debitAttr_nonneg (vcs : List (String × ℚ)) (constrained : List String)
    (v : String) (fmv : ℚ) (hnn : ∀ p ∈ vcs, 0 ≤ p.2)
    (hok : checkAttrOk vcs constrained v fmv = true) :
    ∀ p ∈ debitAttr vcs constrained v fmv, 0 ≤ p.2 := by
  cases hv : lookupA v vcs with
  | some cap =>
    simp only [checkAttrOk, hv] at hok
    simp only [debitAttr, hv, Option.isSome_some, if_true]
    refine updAssoc_sub_nonneg v fmv vcs hnn ?_
    intro c hc
    rw [hv] at hc
    cases hc
    by_cases hlt : cap < fmv
    · rw [if_pos hlt] at hok; cases hok
    · linarith [not_lt.mp hlt]
  | none =>
    cases ho : lookupA OTHERS vcs with
    | none =>
      simp only [debitAttr, hv, ho, Option.isSome_none, Bool.false_eq_true, if_false]
      exact hnn
    | some capO =>
      simp only [checkAttrOk, hv, ho] at hok
      simp only [debitAttr, hv, ho, Option.isSome_none, Option.isSome_some,
        Bool.false_eq_true, if_false, if_true]
      by_cases hcon : v ∈ constrained
      · rw [if_pos hcon]
        exact hnn
      · rw [if_neg hcon]
        rw [if_neg hcon] at hok
        refine updAssoc_sub_nonneg OTHERS fmv vcs hnn ?_
        intro c hc
        rw [ho] at hc
        cases hc
        by_cases hlt : capO < fmv
        · rw [if_pos hlt] at hok; cases hok
        · linarith [not_lt.mp hlt]

lemma lookupA_mem_of_some {α : Type} {k : String} {v : α} {l : List (String × α)}
    (h : lookupA k l = some v) : (k, v) ∈ l :=
  lookupA_mem k v l h

lemma allocStep_nonneg (backlog : List SystemR) (st : AllocState) (c : Candidate)
    (h : ∀ p ∈ st.funds, NonnegFund p.2) :
    ∀ p ∈ (allocStep backlog st c).funds, NonnegFund p.2 := by
  unfold allocStep
  split
  · split
    · exact h
    · rename_i fi hfi
      split
      · exact h
      · rename_i hrem
        split
        · exact h
        · rename_i s hs
          split
          · rename_i hfeas
            intro p hp
            rcases mem_setAssoc _ _ _ _ hp with heq | hold
            · subst heq
              have hfiN : NonnegFund fi := h (c.fundName, fi) (lookupA_mem_of_some hfi)
              constructor
              · show 0 ≤ fi.remaining - c.fmv
                linarith [not_lt.mp hrem]
              show ∀ p ∈ debitCaps fi s c.fmv, ∀ q ∈ p.2, 0 ≤ q.2
              intro q hq r hr
              unfold debitCaps at hq
              rcases List.mem_map.mp hq with ⟨⟨a, vcs⟩, hm, heq2⟩
              cases heq2
              refine debitAttr_nonneg vcs (constrainedOf fi a) (getAttr s a) c.fmv
                (fun u hu => hfiN.2 (a, vcs) hm u hu) ?_ r hr
              unfold feasB at hfeas
              exact List.all_eq_true.mp hfeas (a, vcs) hm
            · exact h p hold
          · exact h
  · exact h

lemma sumFMV_append (l : List SystemR) (s : SystemR) :
    sumFMV (l ++ [s]) = sumFMV l + s.fmv := by
  simp [sumFMV]

/-- Candidate `c` is honest about its FMV relative to the backlog row the
loop will fetch for it. -/
def CandOk (backlog : List SystemR) (c : Candidate) : Prop :=
  ∀ s, backlog.find? (fun t => decide (t.idx = c.systemIdx)) = some s → s.fmv = c.fmv

/-- Every fund entry's allocated FMV plus remaining headroom is bounded. -/
def SumBound (B : String → ℚ) (st : AllocState) : Prop :=
  ∀ p ∈ st.funds, sumFMV p.2.allocated + p.2.remaining ≤ B p.1

lemma allocStep_sumBound (B : String → ℚ) (backlog : List SystemR) (st : AllocState)
    (c : Candidate) (hc : CandOk backlog c) (h : SumBound B st) :
    SumBound B (allocStep backlog st c) := by
  unfold allocStep
  split
  · split
    · exact h
    · rename_i fi hfi
      split
      · exact h
      · split
        · exact h
        · rename_i s hs
          split
          · intro p hp
            rcases mem_setAssoc _ _ _ _ hp with heq | hold
            · subst heq
              have hb : sumFMV fi.allocated + fi.remaining ≤ B c.fundName :=
                h (c.fundName, fi) (lookupA_mem_of_some hfi)
              have hfmv := hc s hs
              dsimp only
              rw [sumFMV_append]
              linarith [hb]
            · exact h p hold
          · exact h
  · exact h

lemma allocLoop_nonneg (backlog : List SystemR) :
    ∀ (cands : List Candidate) (st : AllocState),
      (∀ p ∈ st.funds, NonnegFund p.2) →
      ∀ p ∈ (allocLoop backlog cands st).funds, NonnegFund p.2 := by
  intro cands
  induction cands with
  | nil => intro st h; exact h
  | cons c rest ih =>
    intro st h
    exact ih (allocStep backlog st c) (allocStep_nonneg backlog st c h)

lemma allocLoop_sumBound (B : String → ℚ) (backlog : List SystemR) :
    ∀ (cands : List Candidate) (st : AllocState),
      (∀ c ∈ cands, CandOk backlog c) → SumBound B st →
      SumBound B (allocLoop backlog cands st) := by
  intro cands
  induction cands with
  | nil => intro st _ h; exact h
  | cons c rest ih =>
    intro st hc h
    exact ih (allocStep backlog st c) (fun d hd => hc d (List.mem_cons_of_mem c hd))
      (allocStep_sumBound B backlog st c (hc c (List.mem_cons_self c rest)) h)

lemma prepare_nonneg (dfS : List SystemR) (f : Fund) (t : ℚ) (st : FundState)
    (h : prepareFundData dfS f t = .ok st) : NonnegFund st := by
  unfold prepareFundData at h
  split at h
  · cases h
  · cases h
    constructor
    · dsimp only
      split
      · exact le_refl 0
      · rename_i hr; linarith [not_le.mp hr]
    · intro p hp q hq
      unfold netCaps at hp
      rcases List.mem_map.mp hp with ⟨⟨a, vcs₀⟩, hm, heq⟩
      cases heq
      rcases List.mem_map.mp hq with ⟨⟨v, c₀⟩, hm2, heq2⟩
      cases heq2
      dsimp only
      split
      · exact le_refl 0
      · rename_i hr; linarith [not_lt.mp hr]

lemma prepare_sum (dfS : List SystemR) (f : Fund) (t : ℚ) (st : FundState)
    (h : prepareFundData dfS f t = .ok st) :
    st.allocated = preAllocated dfS f.name ∧
    st.remaining = (if t - sumFMV (preAllocated dfS f.name) ≤ 0 then 0
                    else t - sumFMV (preAllocated dfS f.name)) := by
  unfold prepareFundData at h
  split at h
  · cases h
  · cases h
    exact ⟨rfl, rfl⟩

lemma step1_mem (dfS : List SystemR) (targets : String → ℚ) :
    ∀ (funds : List Fund) (fd : List (String × FundState)),
      step1 dfS targets funds = .ok fd →
      ∀ p ∈ fd, ∃ f ∈ funds, f.name = p.1 ∧
        prepareFundData dfS f (targets f.name) = .ok p.2 := by
  intro funds
  induction funds with
  | nil =>
    intro fd h p hp
    cases h
    cases hp
  | cons g rest ih =>
    intro fd h p hp
    rw [step1] at h
    split at h
    · cases h
    · rename_i st hg
      split at h
      · cases h
      · rename_i l hl
        cases h
        rcases List.mem_cons.mp hp with rfl | hr
        · exact ⟨g, List.mem_cons_self g rest, rfl, hg⟩
        · rcases ih l hl p hr with ⟨f, hf, hn, hpr⟩
          exact ⟨f, List.mem_cons_of_mem g hf, hn, hpr⟩

lemma applyExclusions_sublist :
    ∀ (conds : List Condition) (df : List SystemR),
      List.Sublist (applyExclusions df conds) df := by
  intro conds
  induction conds with
  | nil => intro df; exact List.Sublist.refl df
  | cons c rest ih =>
    intro df
    exact (ih _).trans (List.filter_sublist df)

lemma foldExclusions_sublist :
    ∀ (funds : List Fund) (df : List SystemR),
      List.Sublist (funds.foldl (fun df f => applyExclusions df (exclusionConditions f)) df) df := by
  intro funds
  induction funds with
  | nil => intro df; exact List.Sublist.refl df
  | cons f rest ih =>
    intro df
    exact (ih _).trans (applyExclusions_sublist (exclusionConditions f) df)

lemma step2backlog_sublist (dfS dfB : List SystemR) (funds : List Fund) :
    List.Sublist (step2backlog dfS dfB funds) dfB := by
  unfold step2backlog
  exact (foldExclusions_sublist funds _).trans (List.filter_sublist dfB)

lemma step2backlog_nodup (dfS dfB : List SystemR) (funds : List Fund)
    (h : (dfB.map SystemR.idx).Nodup) :
    ((step2backlog dfS dfB funds).map SystemR.idx).Nodup :=
  h.sublist ((step2backlog_sublist dfS dfB funds).map SystemR.idx)

lemma find?_idx_nodup :
    ∀ (l : List SystemR), (l.map SystemR.idx).Nodup → ∀ s ∈ l,
      l.find? (fun t => decide (t.idx = s.idx)) = some s := by
  intro l
  induction l with
  | nil => intro _ s hs; cases hs
  | cons q rest ih =>
    intro hnd s hs
    rcases List.mem_cons.mp hs with rfl | hr
    · rw [List.find?_cons_of_pos _ (by simp)]
    · have hne : ¬ q.idx = s.idx := by
        intro hh
        have : s.idx ∈ rest.map SystemR.idx := List.mem_map.mpr ⟨s, hr, rfl⟩
        rw [List.map_cons] at hnd
        exact (List.nodup_cons.mp hnd).1 (hh ▸ this)
      rw [List.find?_cons_of_neg _ (by simp [hne])]
      exact ih (List.nodup_cons.mp (List.map_cons SystemR.idx q rest ▸ hnd)).2 s hr

lemma buildCandidates_mem (fd : List (String × FundState)) :
    ∀ (backlog : List SystemR) (c : Candidate), c ∈ buildCandidates fd backlog →
      ∃ s ∈ backlog, c.systemIdx = s.idx ∧ c.fmv = s.fmv := by
  intro backlog c hc
  unfold buildCandidates at hc
  rcases List.mem_flatMap.mp hc with ⟨s, hs, hcs⟩
  unfold candidatesForSystem at hcs
  rcases List.mem_filterMap.mp hcs with ⟨p, _, hp⟩
  split at hp
  · cases hp
  · split at hp
    · cases hp
      exact ⟨s, hs, rfl, rfl⟩
    · cases hp

lemma mem_insertCand (c x : Candidate) :
    ∀ l : List Candidate, x ∈ insertCand c l → x = c ∨ x ∈ l := by
  intro l
  induction l with
  | nil => intro h; exact Or.inl (by simpa [insertCand] using h)
  | cons d rest ih =>
    intro h
    rw [insertCand] at h
    split at h
    · rcases List.mem_cons.mp h with rfl | hr
      · exact Or.inl rfl
      · exact Or.inr hr
    · rcases List.mem_cons.mp h with rfl | hr
      · exact Or.inr (List.mem_cons_self _ _)
      · exact (ih hr).imp id (List.mem_cons_of_mem d)

lemma mem_sortCandidates (x : Candidate) :
    ∀ l : List Candidate, x ∈ sortCandidates l → x ∈ l := by
  intro l
  induction l with
  | nil => intro h; cases h
  | cons c rest ih =>
    intro h
    rw [sortCandidates] at h
    rcases mem_insertCand c x (sortCandidates rest) h with rfl | hr
    · exact List.mem_cons_self _ _
    · exact List.mem_cons_of_mem c (ih hr)

lemma cands_candOk (fd : List (String × FundState)) (backlog : List SystemR)
    (hnd : (backlog.map SystemR.idx).Nodup) :
    ∀ c ∈ sortCandidates (buildCandidates fd backlog), CandOk backlog c := by
  intro c hc s' hs'
  rcases buildCandidates_mem fd backlog c (mem_sortCandidates c _ hc) with ⟨s, hs, hidx, hfmv⟩
  have hfind := find?_idx_nodup backlog hnd s hs
  rw [hidx] at hs'
  rw [hfind] at hs'
  cases hs'
  exact hfmv.symm

/-- C2 counterexample: with a pre-existing allocation of 2,000,000 against
a target capacity of 1,000,000, the run completes and the fund's total
allocated FMV (2,000,000) exceeds its target capacity — the code never
evicts pre-existing over-allocation, so "total allocated FMV never
exceeds target capacity" fails for this input dataset. -/
theorem c2_counterexample :
    runFunds [preSys] [] [⟨"F", 1000000, []⟩] (fun _ => 1000000) =
      [("F", ⟨0, [], [], [preSys]⟩)] ∧
    sumFMV [preSys] = 2000000 ∧ ¬ ((2000000 : ℚ) ≤ 1000000) :=
  ⟨by decide, by decide, by decide⟩

/-- C2 amended: every allocation step preserves non-negativity of all
budget remainders and of fund-level remaining capacity (so they hold at
every point of the loop and in the final state, the initial state being
non-negative by construction); a candidate whose re-check fails on any
applicable budget leaves the state entirely unchanged (no partial
debit); and each fund's final allocated FMV is bounded by its
pre-existing allocation plus the floored initial headroom
`max(0, target − pre-existing)` — not by the target capacity itself,
which pre-existing over-allocation may already exceed. -/
theorem c2_amended :
    (∀ (backlog : List SystemR) (st : AllocState) (c : Candidate),
      (∀ p ∈ st.funds, NonnegFund p.2) →
      ∀ p ∈ (allocStep backlog st c).funds, NonnegFund p.2) ∧
    (∀ (backlog : List SystemR) (st : AllocState) (c : Candidate) (fi : FundState)
        (s : SystemR),
      lookupA c.fundName st.funds = some fi →
      backlog.find? (fun t => decide (t.idx = c.systemIdx)) = some s →
      feasB fi s c.fmv = false → allocStep backlog st c = st) ∧
    (∀ (dfS dfB : List SystemR) (funds : List Fund) (targets : String → ℚ),
      (dfB.map SystemR.idx).Nodup →
      ∀ p ∈ runFunds dfS dfB funds targets,
        NonnegFund p.2 ∧
        sumFMV p.2.allocated ≤ sumFMV (preAllocated dfS p.1) +
          (if targets p.1 - sumFMV (preAllocated dfS p.1) ≤ 0 then 0
           else targets p.1 - sumFMV (preAllocated dfS p.1))) := by
  refine ⟨allocStep_nonneg, ?_, ?_⟩
  · intro backlog st c fi s hfi hs hfeas
    unfold allocStep
    split
    · split
      · rfl
      · rename_i fi' hfi'
        rw [hfi'] at hfi
        cases hfi
        split
        · rfl
        · split
          · rfl
          · rename_i s' hs'
            rw [hs'] at hs
            cases hs
            simp only [hfeas, Bool.false_eq_true, if_false]
    · rfl
  · intro dfS dfB funds targets hnd p hp
    unfold runFunds at hp
    split at hp
    · rename_i r hr
      unfold allocateSystemsToFunds at hr
      split at hr
      · cases hr
      · rename_i fd hfd
        cases hr
        set backlog2 := step2backlog dfS dfB funds with hb2
        have hnd2 : (backlog2.map SystemR.idx).Nodup := step2backlog_nodup dfS dfB funds hnd
        have hinit : ∀ q ∈ fd, NonnegFund q.2 ∧
            sumFMV q.2.allocated + q.2.remaining ≤ sumFMV (preAllocated dfS q.1) +
              (if targets q.1 - sumFMV (preAllocated dfS q.1) ≤ 0 then 0
               else targets q.1 - sumFMV (preAllocated dfS q.1)) := by
          intro q hq
          rcases step1_mem dfS targets funds fd hfd q hq with ⟨f, _, hn, hpr⟩
          refine ⟨prepare_nonneg dfS f (targets f.name) q.2 hpr, ?_⟩
          rcases prepare_sum dfS f (targets f.name) q.2 hpr with ⟨ha, hr⟩
          rw [ha, hr, hn]
        have hnn := allocLoop_nonneg backlog2 (sortCandidates (buildCandidates fd backlog2))
          ⟨fd, backlog2.map SystemR.idx⟩ (fun q hq => (hinit q hq).1) p hp
        have hsb := allocLoop_sumBound
          (fun fn => sumFMV (preAllocated dfS fn) +
            (if targets fn - sumFMV (preAllocated dfS fn) ≤ 0 then 0
             else targets fn - sumFMV (preAllocated dfS fn)))
          backlog2 (sortCandidates (buildCandidates fd backlog2))
          ⟨fd, backlog2.map SystemR.idx⟩ (cands_candOk fd backlog2 hnd2)
          (fun q hq => (hinit q hq).2) p hp
        have hsb2 : sumFMV p.2.allocated + p.2.remaining ≤
            sumFMV (preAllocated dfS p.1) +
              (if targets p.1 - sumFMV (preAllocated dfS p.1) ≤ 0 then 0
               else targets p.1 - sumFMV (preAllocated dfS p.1)) := hsb
        exact ⟨hnn, by linarith [hnn.1, hsb2]⟩
    · cases hp

/-- C2 amended witness: the three parts at concrete inputs. -/
theorem c2_amended_witness :
    (∀ p ∈ (allocStep [(⟨0, 60, []⟩ : SystemR)]
        ⟨[("G", ⟨100, [], [], []⟩)], [0]⟩ ⟨0, "G", 60⟩).funds, NonnegFund p.2) ∧
    allocStep [mkSys 0 60 "CA"]
        ⟨[("Z", ⟨100, [("state", [("CA", 10)])], [("state", ["CA"])], []⟩)], [0]⟩
        ⟨0, "Z", 60⟩ =
      ⟨[("Z", ⟨100, [("state", [("CA", 10)])], [("state", ["CA"])], []⟩)], [0]⟩ ∧
    (∀ p ∈ runFunds [] backlogC1 [fundF] (fun _ => 1000000),
      NonnegFund p.2 ∧
      sumFMV p.2.allocated ≤ sumFMV (preAllocated [] p.1) +
        (if (fun _ => (1000000 : ℚ)) p.1 - sumFMV (preAllocated [] p.1) ≤ 0 then 0
         else (fun _ => (1000000 : ℚ)) p.1 - sumFMV (preAllocated [] p.1))) :=
  ⟨c2_amended.1 _ _ _ (by decide),
   c2_amended.2.1 _ _ _ ⟨100, [("state", [("CA", 10)])], [("state", ["CA"])], []⟩
     (mkSys 0 60 "CA") (by decide) (by decide) (by decide),
   c2_amended.2.2 [] backlogC1 [fundF] (fun _ => 1000000) (by decide)⟩

lemma not_mem_applyExclusions (df : List SystemR) (conds : List Condition) (s : SystemR)
    (cond : Condition) (hc : cond ∈ conds)
    (hmatch : getAttr s cond.type ∈ condKeys cond.values) :
    s ∉ applyExclusions df conds := by
  intro hs
  exact ((mem_applyExclusions df conds s).mp hs).2 cond hc hmatch

lemma excluded_not_in_fold (s : SystemR) :
    ∀ (funds : List Fund) (df : List SystemR),
      (∃ G ∈ funds, ∃ cond ∈ exclusionConditions G,
        getAttr s cond.type ∈ condKeys cond.values) →
      s ∉ funds.foldl (fun df f => applyExclusions df (exclusionConditions f)) df := by
  intro funds
  induction funds with
  | nil =>
    rintro df ⟨G, hG, -⟩
    cases hG
  | cons H rest ih =>
    rintro df ⟨G, hG, cond, hcond, hmatch⟩
    rcases List.mem_cons.mp hG with rfl | hGr
    · intro hs
      have hsub := foldExclusions_sublist rest (applyExclusions df (exclusionConditions G))
      exact not_mem_applyExclusions df (exclusionConditions G) s cond hcond hmatch
        (hsub.subset hs)
    · exact ih _ ⟨G, hGr, cond, hcond, hmatch⟩

lemma excluded_not_in_backlog2 (dfS dfB : List SystemR) (funds : List Fund) (s : SystemR)
    (G : Fund) (hG : G ∈ funds) (cond : Condition) (hcond : cond ∈ exclusionConditions G)
    (hmatch : getAttr s cond.type ∈ condKeys cond.values) :
    s ∉ step2backlog dfS dfB funds := by
  unfold step2backlog
  exact excluded_not_in_fold s funds _ ⟨G, hG, cond, hcond, hmatch⟩

/-- The per-entry allocated-list decomposition the allocation loop
preserves: the initial allocated prefix from `fd0` plus a suffix of
backlog rows. -/
def Decomp (fd0 : List (String × FundState)) (backlog : List SystemR)
    (st : AllocState) : Prop :=
  ∀ p ∈ st.funds, ∃ st₀ rest, (p.1, st₀) ∈ fd0 ∧
    p.2.allocated = st₀.allocated ++ rest ∧ ∀ t ∈ rest, t ∈ backlog

lemma allocStep_decomp (fd0 : List (String × FundState)) (backlog : List SystemR)
    (st : AllocState) (c : Candidate) (h : Decomp fd0 backlog st) :
    Decomp fd0 backlog (allocStep backlog st c) := by
  unfold allocStep
  split
  · split
    · exact h
    · rename_i fi hfi
      split
      · exact h
      · split
        · exact h
        · rename_i s hs
          split
          · intro p hp
            rcases mem_setAssoc _ _ _ _ hp with heq | hold
            · subst heq
              rcases h (c.fundName, fi) (lookupA_mem_of_some hfi) with ⟨st₀, rest, hm, hal, hb⟩
              refine ⟨st₀, rest ++ [s], hm, ?_, ?_⟩
              · show fi.allocated ++ [s] = st₀.allocated ++ (rest ++ [s])
                rw [hal, List.append_assoc]
              · intro t ht
                rcases List.mem_append.mp ht with htr | hts
                · exact hb t htr
                · rw [List.mem_singleton.mp hts]
                  exact List.mem_of_find?_eq_some hs
            · exact h p hold
          · exact h
  · exact h

lemma allocLoop_decomp (fd0 : List (String × FundState)) (backlog : List SystemR) :
    ∀ (cands : List Candidate) (st : AllocState), Decomp fd0 backlog st →
      Decomp fd0 backlog (allocLoop backlog cands st) := by
  intro cands
  induction cands with
  | nil => intro st h; exact h
  | cons c rest ih =>
    intro st h
    exact ih _ (allocStep_decomp fd0 backlog st c h)

lemma run_admitted (dfS dfB : List SystemR) (funds : List Fund) (targets : String → ℚ) :
    ∀ p ∈ runFunds dfS dfB funds targets,
      p.2.allocated = preAllocated dfS p.1 ++ admittedSystems dfS p.1 p.2 ∧
      ∀ t ∈ admittedSystems dfS p.1 p.2, t ∈ step2backlog dfS dfB funds := by
  intro p hp
  unfold runFunds at hp
  split at hp
  · rename_i r hr
    unfold allocateSystemsToFunds at hr
    split at hr
    · cases hr
    · rename_i fd hfd
      cases hr
      have hd0 : Decomp fd (step2backlog dfS dfB funds) ⟨fd, (step2backlog dfS dfB funds).map SystemR.idx⟩ := by
        intro q hq
        exact ⟨q.2, [], hq, by simp, by intro t ht; cases ht⟩
      have hdec := allocLoop_decomp fd (step2backlog dfS dfB funds) _ _ hd0 p hp
      rcases hdec with ⟨st₀, rest, hm, hal, hb⟩
      rcases step1_mem dfS targets funds fd hfd (p.1, st₀) hm with ⟨f, -, hn, hpr⟩
      have hpre : st₀.allocated = preAllocated dfS p.1 := by
        rw [(prepare_sum dfS f (targets f.name) st₀ hpr).1, hn]
      have hadm : admittedSystems dfS p.1 p.2 = rest := by
        unfold admittedSystems
        rw [hal, hpre]
        exact List.drop_left _ _
      rw [hadm, hal, hpre]
      exact ⟨rfl, hb⟩
  · cases hp

/-- C4: a backlog system matching a condition of an active Exclusion
constraint of a fund in the run never appears among that fund's admitted
systems, regardless of remaining fund-level or budget headroom — the
exclusion filter removes it from the candidate pool before capacity
accounting. -/
theorem c4_exclusion_precedence (dfS dfB : List SystemR) (funds : List Fund)
    (targets : String → ℚ) (F : Fund) (hF : F ∈ funds) (s : SystemR)
    (c : Constraint) (hc : c ∈ F.constraints) (hact : c.active = true)
    (htype : c.constraint_type = CType.exclusion)
    (cond : Condition) (hcond : cond ∈ c.conditions)
    (hmatch : getAttr s cond.type ∈ condKeys cond.values)
    (st : FundState) (hst : (F.name, st) ∈ runFunds dfS dfB funds targets) :
    s ∉ admittedSystems dfS F.name st := by
  intro hs
  have hcondF : cond ∈ exclusionConditions F := by
    unfold exclusionConditions
    exact List.mem_flatMap.mpr ⟨c, List.mem_filter.mpr ⟨hc, by simp [hact, htype]⟩, hcond⟩
  have hnot := excluded_not_in_backlog2 dfS dfB funds s F hF cond hcondF hmatch
  have hadm := (run_admitted dfS dfB funds targets (F.name, st) hst).2 s hs
  exact hnot hadm

/-- C4 witness: the CA system is not admitted by the fund excluding CA. -/
theorem c4_witness :
    ¬ (mkSys 7 100 "CA") ∈ admittedSystems [] "A" ⟨1000000, [], [], []⟩ :=
  c4_exclusion_precedence [] [mkSys 7 100 "CA"] [fundA] (fun _ => 1000000)
    fundA (by decide) (mkSys 7 100 "CA") exclCA (by decide) (by decide) (by decide)
    ⟨"state", "In", .list ["CA"]⟩ (by decide) (by decide) ⟨1000000, [], [], []⟩ (by decide)

/-- C3 counterexample: with fund A carrying an active CA exclusion and
fund B carrying no constraints at all, a CA system in the backlog is
removed for every fund of the run: B admits nothing and keeps its full
remaining capacity, so the system does not remain allocatable to B even
though it matches no Exclusion constraint of B. -/
theorem c3_counterexample :
    (∃ c ∈ fundA.constraints, c.active = true ∧ c.constraint_type = CType.exclusion ∧
      ∃ cond ∈ c.conditions, getAttr (mkSys 7 100 "CA") cond.type ∈ condKeys cond.values) ∧
    fundB.constraints = [] ∧
    runFunds [] [mkSys 7 100 "CA"] [fundA, fundB] (fun _ => 1000000) =
      [("A", ⟨1000000, [], [], []⟩), ("B", ⟨1000000, [], [], []⟩)] ∧
    ¬ (mkSys 7 100 "CA") ∈ (FundState.allocated ⟨1000000, [], [], []⟩) :=
  ⟨by decide, by decide, by decide, by decide⟩

/-- C3 amended: exclusion filtering is applied cumulatively to the one
shared backlog, the loop reassigning it after each fund's filter: a
system matching any run fund's active Exclusion condition is removed
from candidacy for every fund of the run, so a system excluded by fund A
is not allocatable to fund B in the same run even when it matches no
exclusion of B. -/
theorem c3_amended (dfS dfB : List SystemR) (funds : List Fund)
    (targets : String → ℚ) (G : Fund) (hG : G ∈ funds) (s : SystemR)
    (c : Constraint) (hc : c ∈ G.constraints) (hact : c.active = true)
    (htype : c.constraint_type = CType.exclusion)
    (cond : Condition) (hcond : cond ∈ c.conditions)
    (hmatch : getAttr s cond.type ∈ condKeys cond.values)
    (p : String × FundState) (hp : p ∈ runFunds dfS dfB funds targets) :
    s ∉ admittedSystems dfS p.1 p.2 := by
  intro hs
  have hcondG : cond ∈ exclusionConditions G := by
    unfold exclusionConditions
    exact List.mem_flatMap.mpr ⟨c, List.mem_filter.mpr ⟨hc, by simp [hact, htype]⟩, hcond⟩
  have hnot := excluded_not_in_backlog2 dfS dfB funds s G hG cond hcondG hmatch
  exact hnot ((run_admitted dfS dfB funds targets p hp).2 s hs)

/-- C3 amended witness: fund A's exclusion keeps the CA system out of
fund B's admitted set in the same run. -/
theorem c3_amended_witness :
    ¬ (mkSys 7 100 "CA") ∈ admittedSystems [] "B" ⟨1000000, [], [], []⟩ :=
  c3_amended [] [mkSys 7 100 "CA"] [fundA, fundB] (fun _ => 1000000)
    fundA (by decide) (mkSys 7 100 "CA") exclCA (by decide) (by decide) (by decide)
    ⟨"state", "In", .list ["CA"]⟩ (by decide) (by decide)
    ("B", ⟨1000000, [], [], []⟩) (by decide)

lemma allocStep_eq_of_not_mem (backlog : List SystemR) (st : AllocState) (c : Candidate)
    (h : ¬ c.systemIdx ∈ st.unallocated) : allocStep backlog st c = st := by
  unfold allocStep
  rw [if_neg h]

lemma allocStep_eq_of_no_fund (backlog : List SystemR) (st : AllocState) (c : Candidate)
    (hm : c.systemIdx ∈ st.unallocated) (hl : lookupA c.fundName st.funds = none) :
    allocStep backlog st c = st := by
  unfold allocStep
  rw [if_pos hm, hl]

lemma allocStep_eq_of_low_rem (backlog : List SystemR) (st : AllocState) (c : Candidate)
    (fi : FundState) (hm : c.systemIdx ∈ st.unallocated)
    (hl : lookupA c.fundName st.funds = some fi) (hr : fi.remaining < c.fmv) :
    allocStep backlog st c = st := by
  unfold allocStep
  rw [if_pos hm]
  simp only [hl]
  rw [if_pos hr]

lemma allocStep_eq_of_no_find (backlog : List SystemR) (st : AllocState) (c : Candidate)
    (fi : FundState) (hm : c.systemIdx ∈ st.unallocated)
    (hl : lookupA c.fundName st.funds = some fi) (hr : ¬ fi.remaining < c.fmv)
    (hfind : backlog.find? (fun t => decide (t.idx = c.systemIdx)) = none) :
    allocStep backlog st c = st := by
  unfold allocStep
  rw [if_pos hm]
  simp only [hl]
  rw [if_neg hr]
  simp only [hfind]

lemma allocStep_eq_of_infeasible (backlog : List SystemR) (st : AllocState) (c : Candidate)
    (fi : FundState) (s : SystemR) (hm : c.systemIdx ∈ st.unallocated)
    (hl : lookupA c.fundName st.funds = some fi) (hr : ¬ fi.remaining < c.fmv)
    (hfind : backlog.find? (fun t => decide (t.idx = c.systemIdx)) = some s)
    (hfeas : feasB fi s c.fmv = false) :
    allocStep backlog st c = st := by
  unfold allocStep
  rw [if_pos hm]
  simp only [hl]
  rw [if_neg hr]
  simp only [hfind, hfeas, Bool.false_eq_true, if_false]

lemma allocStep_eq_taken (backlog : List SystemR) (st : AllocState) (c : Candidate)
    (fi : FundState) (s : SystemR) (hm : c.systemIdx ∈ st.unallocated)
    (hl : lookupA c.fundName st.funds = some fi) (hr : ¬ fi.remaining < c.fmv)
    (hfind : backlog.find? (fun t => decide (t.idx = c.systemIdx)) = some s)
    (hfeas : feasB fi s c.fmv = true) :
    allocStep backlog st c =
      ⟨setAssoc c.fundName ⟨fi.remaining - c.fmv, debitCaps fi s c.fmv,
        fi.constrainedVals, fi.allocated ++ [s]⟩ st.funds,
       st.unallocated.erase c.systemIdx⟩ := by
  unfold allocStep
  rw [if_pos hm]
  simp only [hl]
  rw [if_neg hr]
  simp only [hfind, hfeas, if_true]

lemma allocStep_id_or_taken (backlog : List SystemR) (st : AllocState) (c : Candidate) :
    allocStep backlog st c = st ∨
    ∃ fi s, c.systemIdx ∈ st.unallocated ∧ lookupA c.fundName st.funds = some fi ∧
      ¬ fi.remaining < c.fmv ∧
      backlog.find? (fun t => decide (t.idx = c.systemIdx)) = some s ∧
      feasB fi s c.fmv = true ∧
      allocStep backlog st c =
        ⟨setAssoc c.fundName ⟨fi.remaining - c.fmv, debitCaps fi s c.fmv,
          fi.constrainedVals, fi.allocated ++ [s]⟩ st.funds,
         st.unallocated.erase c.systemIdx⟩ := by
  by_cases hm : c.systemIdx ∈ st.unallocated
  · cases hl : lookupA c.fundName st.funds with
    | none => exact Or.inl (allocStep_eq_of_no_fund backlog st c hm hl)
    | some fi =>
      by_cases hr : fi.remaining < c.fmv
      · exact Or.inl (allocStep_eq_of_low_rem backlog st c fi hm hl hr)
      · cases hfind : backlog.find? (fun t => decide (t.idx = c.systemIdx)) with
        | none => exact Or.inl (allocStep_eq_of_no_find backlog st c fi hm hl hr hfind)
        | some s =>
          cases hfeas : feasB fi s c.fmv with
          | false => exact Or.inl (allocStep_eq_of_infeasible backlog st c fi s hm hl hr hfind hfeas)
          | true =>
            exact Or.inr ⟨fi, s, hm, rfl, hr, rfl, hfeas,
              allocStep_eq_taken backlog st c fi s hm hl hr hfind hfeas⟩
  · exact Or.inl (allocStep_eq_of_not_mem backlog st c hm)

lemma allocStep_unalloc_subset (backlog : List SystemR) (st : AllocState) (c : Candidate)
    (j : Nat) (h : j ∈ (allocStep backlog st c).unallocated) : j ∈ st.unallocated := by
  rcases allocStep_id_or_taken backlog st c with he | ⟨fi, s, -, -, -, -, -, he⟩ <;> rw [he] at h
  · exact h
  · exact List.mem_of_mem_erase h

lemma allocStep_unalloc_nodup (backlog : List SystemR) (st : AllocState) (c : Candidate)
    (h : st.unallocated.Nodup) : (allocStep backlog st c).unallocated.Nodup := by
  rcases allocStep_id_or_taken backlog st c with he | ⟨fi, s, -, -, -, -, -, he⟩ <;> rw [he]
  · exact h
  · exact h.erase c.systemIdx

lemma allocLoop_unalloc_subset (backlog : List SystemR) :
    ∀ (L : List Candidate) (st : AllocState) (j : Nat),
      j ∈ (allocLoop backlog L st).unallocated → j ∈ st.unallocated := by
  intro L
  induction L with
  | nil => intro st j h; exact h
  | cons c rest ih =>
    intro st j h
    exact allocStep_unalloc_subset backlog st c j (ih (allocStep backlog st c) j h)

lemma filter_comm' {α : Type} (p q : α → Bool) (l : List α) :
    (l.filter p).filter q = (l.filter q).filter p := by
  rw [List.filter_filter, List.filter_filter]
  congr 1
  funext a
  rw [Bool.and_comm]

lemma applyExclusions_filter (p : SystemR → Bool) :
    ∀ (conds : List Condition) (df : List SystemR),
      applyExclusions (df.filter p) conds = (applyExclusions df conds).filter p := by
  intro conds
  induction conds with
  | nil => intro df; rfl
  | cons c rest ih =>
    intro df
    rw [applyExclusions, applyExclusions, filter_comm', ih]

lemma foldExclusions_filter (p : SystemR → Bool) :
    ∀ (funds : List Fund) (df : List SystemR),
      funds.foldl (fun df f => applyExclusions df (exclusionConditions f)) (df.filter p) =
        (funds.foldl (fun df f => applyExclusions df (exclusionConditions f)) df).filter p := by
  intro funds
  induction funds with
  | nil => intro df; rfl
  | cons f rest ih =>
    intro df
    rw [List.foldl_cons, List.foldl_cons, applyExclusions_filter, ih]

lemma step2backlog_filter (dfS dfB : List SystemR) (funds : List Fund) (p : SystemR → Bool) :
    step2backlog dfS (dfB.filter p) funds = (step2backlog dfS dfB funds).filter p := by
  simp only [step2backlog]
  rw [filter_comm', foldExclusions_filter]

lemma candidatesForSystem_idx (fd : List (String × FundState)) (s : SystemR) :
    ∀ c ∈ candidatesForSystem fd s, c.systemIdx = s.idx := by
  intro c hc
  unfold candidatesForSystem at hc
  rcases List.mem_filterMap.mp hc with ⟨p, -, hp⟩
  split at hp
  · cases hp
  · split at hp
    · cases hp
      rfl
    · cases hp

lemma buildCandidates_filter (fd : List (String × FundState)) (i : Nat) :
    ∀ backlog : List SystemR,
      buildCandidates fd (backlog.filter (fun t => decide (¬ t.idx = i))) =
        (buildCandidates fd backlog).filter (fun c => decide (¬ c.systemIdx = i)) := by
  intro backlog
  induction backlog with
  | nil => rfl
  | cons s rest ih =>
    unfold buildCandidates
    by_cases hsi : s.idx = i
    · rw [List.filter_cons_of_neg (by simp [hsi])]
      unfold buildCandidates at ih
      rw [ih, List.flatMap_cons, List.filter_append]
      have hnil : (candidatesForSystem fd s).filter (fun c => decide (¬ c.systemIdx = i)) = [] := by
        rw [List.filter_eq_nil_iff]
        intro c hc
        simp [candidatesForSystem_idx fd s c hc, hsi]
      rw [hnil, List.nil_append]
    · rw [List.filter_cons_of_pos (by simp [hsi])]
      unfold buildCandidates at ih
      rw [List.flatMap_cons, List.flatMap_cons, ih, List.filter_append]
      have hall : (candidatesForSystem fd s).filter (fun c => decide (¬ c.systemIdx = i)) =
          candidatesForSystem fd s := by
        rw [List.filter_eq_self]
        intro c hc
        simp [candidatesForSystem_idx fd s c hc, hsi]
      rw [hall]

lemma map_idx_filter (i : Nat) :
    ∀ l : List SystemR,
      (l.filter (fun t => decide (¬ t.idx = i))).map SystemR.idx =
        (l.map SystemR.idx).filter (fun j => decide (¬ j = i)) := by
  intro l
  induction l with
  | nil => rfl
  | cons s rest ih =>
    by_cases hsi : s.idx = i
    · rw [List.filter_cons_of_neg (by simp [hsi]), List.map_cons,
        List.filter_cons_of_neg (by simp [hsi])]
      exact ih
    · rw [List.filter_cons_of_pos (by simp [hsi]), List.map_cons, List.map_cons,
        List.filter_cons_of_pos (by simp [hsi]), ih]

lemma allocLoop_cons (backlog : List SystemR) (c : Candidate) (L : List Candidate)
    (st : AllocState) :
    allocLoop backlog (c :: L) st = allocLoop backlog L (allocStep backlog st c) := rfl

lemma insertCand_front (c : Candidate) :
    ∀ l : List Candidate, (∀ x ∈ l, x.fmv ≤ c.fmv) → insertCand c l = c :: l := by
  intro l h
  cases l with
  | nil => rfl
  | cons d rest =>
    rw [insertCand, if_pos (h d (List.mem_cons_self d rest))]

lemma insertCand_pairwise (c : Candidate) :
    ∀ l : List Candidate, List.Pairwise (fun a b : Candidate => b.fmv ≤ a.fmv) l →
      List.Pairwise (fun a b : Candidate => b.fmv ≤ a.fmv) (insertCand c l) := by
  intro l
  induction l with
  | nil => intro _; exact List.pairwise_singleton _ c
  | cons d rest ih =>
    intro h
    rw [insertCand]
    split
    · rename_i hle
      refine List.pairwise_cons.mpr ⟨?_, h⟩
      intro x hx
      rcases List.mem_cons.mp hx with rfl | hxr
      · exact hle
      · exact le_trans ((List.pairwise_cons.mp h).1 x hxr) hle
    · rename_i hgt
      refine List.pairwise_cons.mpr ⟨?_, ih (List.pairwise_cons.mp h).2⟩
      intro x hx
      rcases mem_insertCand c x rest hx with rfl | hxr
      · exact le_of_lt (not_le.mp hgt)
      · exact (List.pairwise_cons.mp h).1 x hxr

lemma sortCandidates_pairwise :
    ∀ l : List Candidate,
      List.Pairwise (fun a b : Candidate => b.fmv ≤ a.fmv) (sortCandidates l) := by
  intro l
  induction l with
  | nil => exact List.Pairwise.nil
  | cons c rest ih =>
    rw [sortCandidates]
    exact insertCand_pairwise c (sortCandidates rest) ih

lemma filter_insertCand (p : Candidate → Bool) (c : Candidate) (hc : p c = true) :
    ∀ l : List Candidate, List.Pairwise (fun a b : Candidate => b.fmv ≤ a.fmv) l →
      (insertCand c l).filter p = insertCand c (l.filter p) := by
  intro l
  induction l with
  | nil => simp [insertCand, hc]
  | cons d rest ih =>
    intro hpw
    rw [insertCand]
    split
    · rename_i hle
      by_cases hd : p d = true
      · rw [List.filter_cons_of_pos hc, List.filter_cons_of_pos hd, insertCand, if_pos hle]
      · rw [List.filter_cons_of_pos hc, List.filter_cons_of_neg (by simpa using hd)]
        refine (insertCand_front c (rest.filter p) ?_).symm
        intro x hx
        have hxr := List.mem_of_mem_filter hx
        exact le_trans ((List.pairwise_cons.mp hpw).1 x hxr) hle
    · rename_i hgt
      by_cases hd : p d = true
      · rw [List.filter_cons_of_pos hd, List.filter_cons_of_pos hd, insertCand, if_neg hgt,
          ih (List.pairwise_cons.mp hpw).2]
      · rw [List.filter_cons_of_neg (by simpa using hd),
          List.filter_cons_of_neg (by simpa using hd), ih (List.pairwise_cons.mp hpw).2]

lemma filter_insertCand_neg (p : Candidate → Bool) (c : Candidate) (hc : p c = false) :
    ∀ l : List Candidate, (insertCand c l).filter p = l.filter p := by
  intro l
  induction l with
  | nil => simp [insertCand, hc]
  | cons d rest ih =>
    rw [insertCand]
    split
    · rw [List.filter_cons_of_neg (by simp [hc])]
    · by_cases hd : p d = true
      · rw [List.filter_cons_of_pos hd, List.filter_cons_of_pos hd, ih]
      · rw [List.filter_cons_of_neg (by simpa using hd),
          List.filter_cons_of_neg (by simpa using hd), ih]

lemma sortCandidates_filter (p : Candidate → Bool) :
    ∀ l : List Candidate, sortCandidates (l.filter p) = (sortCandidates l).filter p := by
  intro l
  induction l with
  | nil => rfl
  | cons c rest ih =>
    by_cases hc : p c = true
    · rw [List.filter_cons_of_pos hc, sortCandidates, sortCandidates, ih,
        filter_insertCand p c hc (sortCandidates rest) (sortCandidates_pairwise rest)]
    · rw [List.filter_cons_of_neg (by simpa using hc), sortCandidates, ih,
        filter_insertCand_neg p c (by simpa using hc)]

lemma find?_filter_ne (i j : Nat) (hji : ¬ j = i) :
    ∀ l : List SystemR,
      (l.filter (fun t => decide (¬ t.idx = i))).find? (fun t => decide (t.idx = j)) =
        l.find? (fun t => decide (t.idx = j)) := by
  intro l
  induction l with
  | nil => rfl
  | cons q rest ih =>
    by_cases hqi : q.idx = i
    · have hnq : ¬ q.idx = j := fun hq => hji (hq ▸ hqi)
      rw [List.filter_cons_of_neg (by simp [hqi]),
        List.find?_cons_of_neg _ (by simp [hnq])]
      exact ih
    · rw [List.filter_cons_of_pos (by simp [hqi])]
      by_cases hqj : q.idx = j
      · rw [List.find?_cons_of_pos _ (by simp [hqj]), List.find?_cons_of_pos _ (by simp [hqj])]
      · rw [List.find?_cons_of_neg _ (by simp [hqj]), List.find?_cons_of_neg _ (by simp [hqj])]
        exact ih

lemma erase_filter_comm (i j : Nat) (hji : ¬ j = i) :
    ∀ l : List Nat,
      (l.filter (fun k => decide (¬ k = i))).erase j =
        (l.erase j).filter (fun k => decide (¬ k = i)) := by
  intro l
  induction l with
  | nil => rfl
  | cons m rest ih =>
    by_cases hmj : m = j
    · subst hmj
      rw [List.filter_cons_of_pos (by simp [hji]), List.erase_cons_head,
        List.erase_cons_head]
    · by_cases hmi : m = i
      · rw [List.filter_cons_of_neg (by simp [hmi]),
          List.erase_cons_tail (by simp [hmj]),
          List.filter_cons_of_neg (by simp [hmi])]
        exact ih
      · rw [List.filter_cons_of_pos (by simp [hmi]),
          List.erase_cons_tail (by simp [hmj]),
          List.erase_cons_tail (by simp [hmj]),
          List.filter_cons_of_pos (by simp [hmi]), ih]

lemma mem_filter_ne (i j : Nat) (hji : ¬ j = i) (l : List Nat) :
    j ∈ l.filter (fun k => decide (¬ k = i)) ↔ j ∈ l := by
  rw [List.mem_filter]
  simp [hji]

lemma allocStep_sim (i : Nat) (backlog : List SystemR) (st st' : AllocState) (c : Candidate)
    (hci : ¬ c.systemIdx = i) (hf : st'.funds = st.funds)
    (hu : st'.unallocated = st.unallocated.filter (fun j => decide (¬ j = i))) :
    (allocStep (backlog.filter (fun t => decide (¬ t.idx = i))) st' c).funds =
      (allocStep backlog st c).funds ∧
    (allocStep (backlog.filter (fun t => decide (¬ t.idx = i))) st' c).unallocated =
      (allocStep backlog st c).unallocated.filter (fun j => decide (¬ j = i)) := by
  have hmem : c.systemIdx ∈ st'.unallocated ↔ c.systemIdx ∈ st.unallocated := by
    rw [hu]
    exact mem_filter_ne i c.systemIdx hci st.unallocated
  by_cases hm : c.systemIdx ∈ st.unallocated
  · have hm' : c.systemIdx ∈ st'.unallocated := hmem.mpr hm
    cases hl : lookupA c.fundName st.funds with
    | none =>
      have hl' : lookupA c.fundName st'.funds = none := by rw [hf]; exact hl
      rw [allocStep_eq_of_no_fund backlog st c hm hl,
        allocStep_eq_of_no_fund _ st' c hm' hl']
      exact ⟨hf, hu⟩
    | some fi =>
      have hl' : lookupA c.fundName st'.funds = some fi := by rw [hf]; exact hl
      by_cases hr : fi.remaining < c.fmv
      · rw [allocStep_eq_of_low_rem backlog st c fi hm hl hr,
          allocStep_eq_of_low_rem _ st' c fi hm' hl' hr]
        exact ⟨hf, hu⟩
      · have hfindT := find?_filter_ne i c.systemIdx hci backlog
        cases hfind : backlog.find? (fun t => decide (t.idx = c.systemIdx)) with
        | none =>
          rw [allocStep_eq_of_no_find backlog st c fi hm hl hr hfind,
            allocStep_eq_of_no_find _ st' c fi hm' hl' hr (hfindT.trans hfind)]
          exact ⟨hf, hu⟩
        | some s =>
          cases hfeas : feasB fi s c.fmv with
          | false =>
            rw [allocStep_eq_of_infeasible backlog st c fi s hm hl hr hfind hfeas,
              allocStep_eq_of_infeasible _ st' c fi s hm' hl' hr (hfindT.trans hfind) hfeas]
            exact ⟨hf, hu⟩
          | true =>
            rw [allocStep_eq_taken backlog st c fi s hm hl hr hfind hfeas,
              allocStep_eq_taken _ st' c fi s hm' hl' hr (hfindT.trans hfind) hfeas]
            constructor
            · show setAssoc c.fundName _ st'.funds = setAssoc c.fundName _ st.funds
              rw [hf]
            · show st'.unallocated.erase c.systemIdx =
                (st.unallocated.erase c.systemIdx).filter (fun j => decide (¬ j = i))
              rw [hu]
              exact erase_filter_comm i c.systemIdx hci st.unallocated
  · rw [allocStep_eq_of_not_mem backlog st c hm,
      allocStep_eq_of_not_mem _ st' c (fun hh => hm (hmem.mp hh))]
    exact ⟨hf, hu⟩

lemma loop_sim (i : Nat) (backlog : List SystemR) :
    ∀ (L : List Candidate) (st st' : AllocState),
      st'.funds = st.funds →
      st'.unallocated = st.unallocated.filter (fun j => decide (¬ j = i)) →
      st.unallocated.Nodup →
      (i ∈ st.unallocated → i ∈ (allocLoop backlog L st).unallocated) →
      (allocLoop (backlog.filter (fun t => decide (¬ t.idx = i)))
          (L.filter (fun c => decide (¬ c.systemIdx = i))) st').funds =
        (allocLoop backlog L st).funds := by
  intro L
  induction L with
  | nil => intro st st' hfu hun _ _; exact hfu
  | cons c L ih =>
    intro st st' hfu hun hnd hkeep
    by_cases hci : c.systemIdx = i
    · have hstep : allocStep backlog st c = st := by
        rcases allocStep_id_or_taken backlog st c with he | ⟨fi, s, hm, -, -, -, -, he⟩
        · exact he
        · exfalso
          have hiin : i ∈ st.unallocated := hci ▸ hm
          have hfin := hkeep hiin
          rw [allocLoop_cons] at hfin
          have hsub := allocLoop_unalloc_subset backlog L (allocStep backlog st c) i hfin
          rw [he] at hsub
          have hmem2 : i ∈ st.unallocated.erase c.systemIdx := hsub
          rw [hci] at hmem2
          exact (hnd.mem_erase_iff.mp hmem2).1 rfl
      rw [List.filter_cons_of_neg (by simp [hci]), allocLoop_cons, hstep]
      refine ih st st' hfu hun hnd ?_
      intro hiin
      have hk := hkeep hiin
      rw [allocLoop_cons, hstep] at hk
      exact hk
    · rcases allocStep_sim i backlog st st' c hci hfu hun with ⟨hfu2, hun2⟩
      rw [List.filter_cons_of_pos (by simp [hci]), allocLoop_cons, allocLoop_cons]
      refine ih (allocStep backlog st c) _ hfu2 hun2
        (allocStep_unalloc_nodup backlog st c hnd) ?_
      intro hiin
      have hk := hkeep (allocStep_unalloc_subset backlog st c i hiin)
      rw [allocLoop_cons] at hk
      exact hk

/-- C8 counterexample: with fund capacity 100 and backlog FMVs 60, 50, 50,
the greedy run allocates 60; removing the 60-FMV system and re-running
allocates 100 — removing a system strictly increased the fund's total
allocated FMV. -/
theorem c8_counterexample :
    (runFunds [] backlogG [fundG] (fun _ => 100)).map (fun p => sumFMV p.2.allocated) =
      [60] ∧
    (runFunds [] (backlogG.filter (fun t => decide (¬ t.idx = 0))) [fundG]
        (fun _ => 100)).map (fun p => sumFMV p.2.allocated) = [100] ∧
    (60 : ℚ) < 100 :=
  ⟨by decide, by decide, by decide⟩

/-- C8 amended: removing a backlog system that the original run left
unallocated (its index survives in the loop's unallocated set whenever it
survived exclusion filtering) leaves every fund's final state unchanged —
in particular no fund's total allocated FMV increases; removing an
*allocated* system, by contrast, can strictly increase total allocated
FMV. -/
theorem c8_amended (dfS dfB : List SystemR) (funds : List Fund) (targets : String → ℚ)
    (i : Nat) (hnd : (dfB.map SystemR.idx).Nodup)
    (hun : i ∈ (step2backlog dfS dfB funds).map SystemR.idx →
      i ∈ runUnallocated dfS dfB funds targets) :
    runFunds dfS (dfB.filter (fun t => decide (¬ t.idx = i))) funds targets =
      runFunds dfS dfB funds targets := by
  unfold runFunds allocateSystemsToFunds
  unfold runUnallocated at hun
  cases hfd : step1 dfS targets funds with
  | error e => rfl
  | ok fd =>
    simp only [hfd] at hun
    have hb2 : step2backlog dfS (dfB.filter (fun t => decide (¬ t.idx = i))) funds =
        (step2backlog dfS dfB funds).filter (fun t => decide (¬ t.idx = i)) :=
      step2backlog_filter dfS dfB funds _
    have hcands : (sortCandidates (buildCandidates fd
          (step2backlog dfS dfB funds))).filter (fun c => decide (¬ c.systemIdx = i)) =
        sortCandidates (buildCandidates fd
          ((step2backlog dfS dfB funds).filter (fun t => decide (¬ t.idx = i)))) := by
      rw [buildCandidates_filter, sortCandidates_filter]
    have hmain := loop_sim i (step2backlog dfS dfB funds)
      (sortCandidates (buildCandidates fd (step2backlog dfS dfB funds)))
      ⟨fd, (step2backlog dfS dfB funds).map SystemR.idx⟩
      ⟨fd, ((step2backlog dfS dfB funds).filter (fun t => decide (¬ t.idx = i))).map SystemR.idx⟩
      rfl (map_idx_filter i _) (step2backlog_nodup dfS dfB funds hnd) hun
    rw [hcands] at hmain
    rw [← hb2] at hmain
    exact hmain

/-- C8 amended witness: with capacity 100 and backlog 60, 50, the 50-FMV
system is left unallocated, and removing it leaves the run unchanged. -/
theorem c8_amended_witness :
    runFunds [] (backlogW.filter (fun t => decide (¬ t.idx = 1))) [fundG] (fun _ => 100) =
      runFunds [] backlogW [fundG] (fun _ => 100) :=
  c8_amended [] backlogW [fundG] (fun _ => 100) 1 (by decide) (by decide)

end Proofs

end TaxEquity
